import Mathlib

set_option linter.unusedVariables false

/-!
Shallow embedding of the per-block operations processor
(`consensus/state_processing/src/per_block_processing/process_operations.rs`)
of a beacon-chain client, together with theorems about its behaviour.

External collaborators (signature verification, Merkle-proof verification,
committee caches, proposer-index resolution, base-reward calculation, exit
initiation, the progressive-balance hook) live outside the modelled file;
they are abstracted as fields of an `Externals` record.  Helpers of the
repository that live outside the modelled file but whose behaviour the
design documentation pins down are given explicit definitions marked
`Modelled from the spec`.  Machine integers (u64) are modelled as `Nat`
with explicit checked arithmetic, mirroring the `safe_arith` crate.

Rust's `&mut state` + `Result<(), E>` calling convention is modelled by
functions returning `BeaconState × Option BErr`: the state component holds
whatever mutations happened before the (optional) error, exactly as the
in-place mutations of the source survive an early `?` return.
-/

/-- u64 overflow bound: `2 ^ 64`. -/
def U64_LIMIT : Nat := 18446744073709551616

/-- Reasons a proposer-slashing record can be rejected by its verifier. -/
inductive PSReason where
  | slotMismatch
  | proposerMismatch
  | headersIdentical
  | unknownValidator
  | notSlashable
  | badSignature
  deriving DecidableEq, Repr

/-- Block-processing errors (`BlockProcessingError` plus the
`BeaconStateError` variants the modelled code can surface). -/
inductive BErr where
  | proposerSlashingInvalid (index : Nat) (reason : PSReason)
  | attesterSlashingInvalid (index : Nat)
  | attestationInvalid (index : Nat)
  | depositCountInvalid (expected found : Nat)
  | depositInvalid (index : Nat)
  | exitInvalid (index : Nat)
  | blsExecutionChangeInvalid (index : Nat)
  | beaconStateError
  | participationOutOfBounds (index : Nat)
  | epochOutOfBounds
  | committeeCacheError
  | progressiveBalancesError
  | listFull
  | arithError
  deriving DecidableEq, Repr

/-- Embeds `safe_arith::SafeArith::safe_add` on u64. -/
def safe_add (a b : Nat) : Except BErr Nat :=
  if a + b < U64_LIMIT then .ok (a + b) else .error .arithError

/-- Embeds `safe_arith::SafeArith::safe_sub` on u64. -/
def safe_sub (a b : Nat) : Except BErr Nat :=
  if b ≤ a then .ok (a - b) else .error .arithError

/-- Embeds `safe_arith::SafeArith::safe_mul` on u64. -/
def safe_mul (a b : Nat) : Except BErr Nat :=
  if a * b < U64_LIMIT then .ok (a * b) else .error .arithError

/-- Embeds `safe_arith::SafeArith::safe_div` on u64 (flooring division). -/
def safe_div (a b : Nat) : Except BErr Nat :=
  if b = 0 then .error .arithError else .ok (a / b)

/-- Embeds `safe_arith::SafeArith::safe_rem` on u64. -/
def safe_rem (a b : Nat) : Except BErr Nat :=
  if b = 0 then .error .arithError else .ok (a % b)

/-- Protocol fork tags covered by the modelled code
(`BeaconBlockBodyRef`'s variants). -/
inductive Fork where
  | base
  | altair
  | merge
  | capella
  | deneb
  deriving DecidableEq, Repr

/-- The signature-verification mode flag (`VerifySignatures`). -/
inductive VerifySignatures where
  | yes
  | no
  deriving DecidableEq, Repr

/-- A validator record (`types::Validator`); keys, credentials and roots
are modelled as opaque `Nat` identifiers. -/
structure Validator where
  pubkey : Nat
  withdrawal_credentials : Nat
  activation_eligibility_epoch : Nat
  activation_epoch : Nat
  exit_epoch : Nat
  withdrawable_epoch : Nat
  effective_balance : Nat
  slashed : Bool
  deriving DecidableEq, Repr

/-- A source/target checkpoint of an attestation. -/
structure Checkpoint where
  epoch : Nat
  root : Nat
  deriving DecidableEq, Repr

/-- Embeds `types::AttestationData`. -/
structure AttestationData where
  slot : Nat
  index : Nat
  beacon_block_root : Nat
  source : Checkpoint
  target : Checkpoint
  deriving DecidableEq, Repr

/-- Embeds `types::Attestation`; the aggregate signature is opaque. -/
structure Attestation where
  aggregation_bits : List Bool
  data : AttestationData
  signature : Nat
  deriving DecidableEq, Repr

/-- Embeds `types::PendingAttestation` (legacy fork accumulation record). -/
structure PendingAttestation where
  aggregation_bits : List Bool
  data : AttestationData
  inclusion_delay : Nat
  proposer_index : Nat
  deriving DecidableEq, Repr

/-- Embeds `types::BeaconBlockHeader`. -/
structure BeaconBlockHeader where
  slot : Nat
  proposer_index : Nat
  parent_root : Nat
  state_root : Nat
  body_root : Nat
  deriving DecidableEq, Repr

/-- Embeds `types::SignedBeaconBlockHeader`. -/
structure SignedBeaconBlockHeader where
  message : BeaconBlockHeader
  signature : Nat
  deriving DecidableEq, Repr

/-- Embeds `types::ProposerSlashing`. -/
structure ProposerSlashing where
  signed_header_1 : SignedBeaconBlockHeader
  signed_header_2 : SignedBeaconBlockHeader
  deriving DecidableEq, Repr

/-- Embeds `types::IndexedAttestation`. -/
structure IndexedAttestation where
  attesting_indices : List Nat
  data : AttestationData
  signature : Nat
  deriving DecidableEq, Repr

/-- Embeds `types::AttesterSlashing`. -/
structure AttesterSlashing where
  attestation_1 : IndexedAttestation
  attestation_2 : IndexedAttestation
  deriving DecidableEq, Repr

/-- Embeds `types::DepositData`; the registration signature is opaque (checked by
an external verifier). -/
structure DepositData where
  pubkey : Nat
  withdrawal_credentials : Nat
  amount : Nat
  signature : Nat
  deriving DecidableEq, Repr

/-- Embeds `types::Deposit` (Merkle proof modelled as opaque data). -/
structure Deposit where
  proof : List Nat
  data : DepositData
  deriving DecidableEq, Repr

/-- Embeds `types::VoluntaryExit`. -/
structure VoluntaryExit where
  epoch : Nat
  validator_index : Nat
  deriving DecidableEq, Repr

/-- Embeds `types::SignedVoluntaryExit`. -/
structure SignedVoluntaryExit where
  message : VoluntaryExit
  signature : Nat
  deriving DecidableEq, Repr

/-- Embeds `types::BlsToExecutionChange`. -/
structure BlsToExecutionChange where
  validator_index : Nat
  from_bls_pubkey : Nat
  to_execution_address : Nat
  deriving DecidableEq, Repr

/-- Embeds `types::SignedBlsToExecutionChange`. -/
structure SignedBlsToExecutionChange where
  message : BlsToExecutionChange
  signature : Nat
  deriving DecidableEq, Repr

/-- The beacon state, restricted to the fields the modelled code touches.
Fork-dependent collections are `Option`s: `none` models a fork whose state
variant lacks the field (the corresponding accessor returns `Err`).
`total_active_balance` models the per-epoch cache read by
`get_total_active_balance` (`none` = cache not initialized). -/
structure BeaconState where
  slot : Nat
  validators : List Validator
  balances : List Nat
  eth1_deposit_index : Nat
  eth1_data_deposit_count : Nat
  previous_epoch_attestations : Option (List PendingAttestation)
  current_epoch_attestations : Option (List PendingAttestation)
  previous_epoch_participation : Option (List Nat)
  current_epoch_participation : Option (List Nat)
  inactivity_scores : Option (List Nat)
  total_active_balance : Option Nat
  deriving DecidableEq, Repr

/-- A block body: fork tag plus the per-kind operation lists
(`BeaconBlockBodyRef`).  `bls_to_execution_changes` is only *reachable*
on Capella/Deneb bodies (see `body_bls_to_execution_changes`). -/
structure BeaconBlockBody where
  fork : Fork
  proposer_slashings : List ProposerSlashing
  attester_slashings : List AttesterSlashing
  attestations : List Attestation
  deposits : List Deposit
  voluntary_exits : List SignedVoluntaryExit
  bls_to_execution_changes : List SignedBlsToExecutionChange
  deriving DecidableEq, Repr

/-- Embeds `block_body.bls_to_execution_changes()`: `Ok` exactly on the forks
whose body carries the field. -/
def body_bls_to_execution_changes (b : BeaconBlockBody) :
    Option (List SignedBlsToExecutionChange) :=
  match b.fork with
  | .capella => some b.bls_to_execution_changes
  | .deneb => some b.bls_to_execution_changes
  | _ => none

/-- Chain configuration constants (`ChainSpec`), restricted to what the
modelled code reads. -/
structure ChainSpec where
  far_future_epoch : Nat
  effective_balance_increment : Nat
  max_effective_balance : Nat
  min_slashing_penalty_quotient : Nat
  deriving DecidableEq, Repr

/-- The type-level constants of `T : EthSpec` used by the modelled code. -/
structure EthSpecC where
  slots_per_epoch : Nat
  max_deposits : Nat
  max_pending_attestations : Nat
  validator_registry_limit : Nat
  deriving DecidableEq, Repr

/-- Embeds `ConsensusContext`: the per-block cache of the proposer index
(`none` = not yet computed; computation is delegated to an external
resolver and, being deterministic, is not re-cached here). -/
structure ConsensusContext where
  proposer_index : Option Nat
  deriving DecidableEq, Repr

/-- Embeds `state.current_epoch()`: `slot / T::slots_per_epoch`. -/
def current_epoch (T : EthSpecC) (s : BeaconState) : Nat :=
  s.slot / T.slots_per_epoch

/-- Embeds `state.previous_epoch()`: one less than the current epoch, saturating
at the genesis epoch (`Nat` subtraction saturates at `0`). -/
def previous_epoch (T : EthSpecC) (s : BeaconState) : Nat :=
  current_epoch T s - 1

/-- Embeds `VariableList::push`: append, failing once the list is at its
type-level capacity. -/
def push_limited {α : Type} (limit : Nat) (l : List α) (x : α) :
    Except BErr (List α) :=
  if l.length < limit then .ok (l ++ [x]) else .error .listFull

/-- The external collaborators consumed by the modelled file, abstracted
as functions (`Option`/`Bool` results model their `Result`s; error detail
of a collaborator is collapsed, since the modelled code only wraps it). -/
structure Externals where
  computeProposerIndex : BeaconState → Option Nat
  buildCommitteeCachePrev : BeaconState → Bool
  buildCommitteeCacheCurr : BeaconState → Bool
  verifyAttestation : BeaconState → Attestation → Option (List Nat)
  participationFlagIndices : BeaconState → AttestationData → Nat → Option (List Nat)
  baseRewardPerIncrement : Nat → Option Nat
  baseReward : BeaconState → Nat → Nat → Option Nat
  onTargetFlagSet : BeaconState → Nat → Nat → Bool
  verifyProposerSlashingSig : BeaconState → ProposerSlashing → Bool
  verifyAttesterSlashing : BeaconState → AttesterSlashing → Bool
  getSlashableIndices : BeaconState → AttesterSlashing → Option (List Nat)
  initiateValidatorExit : BeaconState → Nat → Except BErr BeaconState
  verifyExit : BeaconState → SignedVoluntaryExit → Bool
  verifyBlsChange : BeaconState → SignedBlsToExecutionChange → Bool
  changeWithdrawalCredentials : Validator → Nat → Validator
  verifyDepositMerkleProof : BeaconState → Deposit → Nat → Bool
  verifyDepositSignature : DepositData → Bool

/-- Embeds `ctxt.get_proposer_index(state, spec)`: the cached index if present,
otherwise the external resolver. -/
def ctxt_proposer_index (ext : Externals) (ctxt : ConsensusContext)
    (s : BeaconState) : Option Nat :=
  match ctxt.proposer_index with
  | some i => some i
  | none => ext.computeProposerIndex s

/-- Embeds `ParticipationFlags::has_flag`: bit test on the flag bitset. -/
def has_flag (bits flag_index : Nat) : Bool :=
  Nat.testBit bits flag_index

/-- Embeds `ParticipationFlags::add_flag`: set a bit of the flag bitset. -/
def add_flag (bits flag_index : Nat) : Nat :=
  bits ||| (1 <<< flag_index)

/-- Modelled from the spec: protocol-defined Altair constants
(`types::consts::altair`): the per-flag weights (timely source, target,
head), the weight denominator and the proposer weight. -/
def PARTICIPATION_FLAG_WEIGHTS : List Nat := [14, 26, 14]

/-- Modelled from the spec: `types::consts::altair::WEIGHT_DENOMINATOR`. -/
def WEIGHT_DENOMINATOR : Nat := 64

/-- Modelled from the spec: `types::consts::altair::PROPOSER_WEIGHT`. -/
def PROPOSER_WEIGHT : Nat := 8

/-- Modelled from the spec:
`types::consts::altair::TIMELY_TARGET_FLAG_INDEX`. -/
def TIMELY_TARGET_FLAG_INDEX : Nat := 1

/-- Modelled from the spec: `state.get_validator(index)` — index lookup in
the validator registry, `Err` when out of bounds. -/
def get_validator (s : BeaconState) (index : Nat) : Except BErr Validator :=
  match s.validators.get? index with
  | some v => .ok v
  | none => .error .beaconStateError

/-- In-place update of one validator record (`get_validator_mut` write). -/
def set_validator (s : BeaconState) (index : Nat) (v : Validator) :
    BeaconState :=
  { s with validators := s.validators.set index v }

/-- Modelled from the spec: `common::increase_balance` — checked add onto
the indexed balance ("never lets a value silently wrap"), `Err` on a bad
index or overflow. -/
def increase_balance (s : BeaconState) (index amount : Nat) :
    Except BErr BeaconState :=
  match s.balances.get? index with
  | none => .error .beaconStateError
  | some b =>
    match safe_add b amount with
    | .error e => .error e
    | .ok b1 => .ok { s with balances := s.balances.set index b1 }

/-- Modelled from the spec: `common::decrease_balance` — saturating
subtraction on the indexed balance (`Nat` subtraction saturates). -/
def decrease_balance (s : BeaconState) (index amount : Nat) :
    Except BErr BeaconState :=
  match s.balances.get? index with
  | none => .error .beaconStateError
  | some b => .ok { s with balances := s.balances.set index (b - amount) }

/-- Modelled from the spec: `state.get_epoch_participation_mut(epoch)` —
the current-epoch flag list when `epoch` is the current epoch, the
previous-epoch list when it is the previous epoch, `Err` otherwise or when
the fork has no participation flags. -/
def get_epoch_participation (T : EthSpecC) (s : BeaconState) (epoch : Nat) :
    Except BErr (List Nat) :=
  if epoch = current_epoch T s then
    match s.current_epoch_participation with
    | some l => .ok l
    | none => .error .beaconStateError
  else if epoch = previous_epoch T s then
    match s.previous_epoch_participation with
    | some l => .ok l
    | none => .error .beaconStateError
  else .error .epochOutOfBounds

/-- Write-back companion of `get_epoch_participation` (the mutable borrow
in the source): stores the updated flag list into the epoch's slot. -/
def set_epoch_participation (T : EthSpecC) (s : BeaconState) (epoch : Nat)
    (l : List Nat) : BeaconState :=
  if epoch = current_epoch T s then
    { s with current_epoch_participation := some l }
  else if epoch = previous_epoch T s then
    { s with previous_epoch_participation := some l }
  else s

/-- Embeds `state.get_total_active_balance()`: the per-epoch cache, `Err` when
not initialized. -/
def get_total_active_balance (s : BeaconState) : Except BErr Nat :=
  match s.total_active_balance with
  | some b => .ok b
  | none => .error .beaconStateError

/-- Modelled from the spec: `state.get_outstanding_deposit_len()` —
`eth1_data.deposit_count.safe_sub(eth1_deposit_index)`. -/
def get_outstanding_deposit_len (s : BeaconState) : Except BErr Nat :=
  safe_sub s.eth1_data_deposit_count s.eth1_deposit_index

/-- Modelled from the spec: `get_existing_validator_index` — the index of
the registered validator carrying this public key, if any ("Created once
per unique public key"). -/
def get_existing_validator_index (s : BeaconState) (pubkey : Nat) :
    Option Nat :=
  s.validators.findIdx? (fun v => v.pubkey = pubkey)

/-- Modelled from the spec: `is_slashable_validator` — not yet slashed and
inside the activation..withdrawable window ("both within the allowed
pre-expiry window"). -/
def is_slashable_validator (v : Validator) (epoch : Nat) : Bool :=
  !v.slashed && v.activation_epoch ≤ epoch && epoch < v.withdrawable_epoch

/-- Modelled from the spec: `verify_proposer_slashing` — two signed
proposer messages for the same slot and proposer that differ, issued by a
known, currently slashable validator, with both signatures verified
against the issuing validator's key unless signature verification is
skipped.  Returns the first violated rule, `none` when valid. -/
def verify_proposer_slashing (T : EthSpecC) (ext : Externals)
    (vs : VerifySignatures) (s : BeaconState) (ps : ProposerSlashing) :
    Option PSReason :=
  let h1 := ps.signed_header_1.message
  let h2 := ps.signed_header_2.message
  if h1.slot ≠ h2.slot then some .slotMismatch
  else if h1.proposer_index ≠ h2.proposer_index then some .proposerMismatch
  else if h1 = h2 then some .headersIdentical
  else
    match s.validators.get? h1.proposer_index with
    | none => some .unknownValidator
    | some v =>
      if ¬ is_slashable_validator v (current_epoch T s) then
        some .notSlashable
      else if vs = .yes ∧ ¬ ext.verifyProposerSlashingSig s ps then
        some .badSignature
      else none

/-- Modelled from the spec: `common::slash_validator` — initiate the
validator's exit (delegated to the external exit-initiation collaborator),
mark it slashed, and apply the immediate balance reduction (the remaining
reduction mechanics are deferred to epoch processing). -/
def slash_validator (ext : Externals) (spec : ChainSpec) (s : BeaconState)
    (index : Nat) : Except BErr BeaconState :=
  match ext.initiateValidatorExit s index with
  | .error e => .error e
  | .ok s1 =>
    match get_validator s1 index with
    | .error e => .error e
    | .ok v =>
      let s2 := set_validator s1 index { v with slashed := true }
      match safe_div v.effective_balance spec.min_slashing_penalty_quotient with
      | .error e => .error e
      | .ok penalty => decrease_balance s2 index penalty

/-- One proposer-slashing iteration step plus the rest of the list
(`process_proposer_slashings`' `try_for_each`, record index threaded). -/
def process_proposer_slashings_aux (T : EthSpecC) (ext : Externals)
    (vs : VerifySignatures) (spec : ChainSpec) :
    Nat → BeaconState → List ProposerSlashing → BeaconState × Option BErr
  | _, s, [] => (s, none)
  | i, s, ps :: rest =>
    match verify_proposer_slashing T ext vs s ps with
    | some reason => (s, some (.proposerSlashingInvalid i reason))
    | none =>
      match slash_validator ext spec s ps.signed_header_1.message.proposer_index with
      | .error e => (s, some e)
      | .ok s1 => process_proposer_slashings_aux T ext vs spec (i + 1) s1 rest

/-- Embeds `process_proposer_slashings`: verify and apply proposer slashings in
series, short-circuiting on an invalid record. -/
def process_proposer_slashings (T : EthSpecC) (ext : Externals)
    (vs : VerifySignatures) (ctxt : ConsensusContext) (spec : ChainSpec)
    (s : BeaconState) (proposer_slashings : List ProposerSlashing) :
    BeaconState × Option BErr :=
  process_proposer_slashings_aux T ext vs spec 0 s proposer_slashings

/-- The inner slashing loop of `process_attester_slashings`: slash every
slashable index of one record. -/
def slash_indices_loop (ext : Externals) (spec : ChainSpec) :
    List Nat → BeaconState → BeaconState × Option BErr
  | [], s => (s, none)
  | idx :: rest, s =>
    match slash_validator ext spec s idx with
    | .error e => (s, some e)
    | .ok s1 => slash_indices_loop ext spec rest s1

/-- The indexed loop of `process_attester_slashings`. -/
def process_attester_slashings_aux (ext : Externals) (spec : ChainSpec) :
    Nat → BeaconState → List AttesterSlashing → BeaconState × Option BErr
  | _, s, [] => (s, none)
  | i, s, sl :: rest =>
    if ext.verifyAttesterSlashing s sl then
      match ext.getSlashableIndices s sl with
      | none => (s, some (.attesterSlashingInvalid i))
      | some indices =>
        match slash_indices_loop ext spec indices s with
        | (s1, some e) => (s1, some e)
        | (s1, none) => process_attester_slashings_aux ext spec (i + 1) s1 rest
    else (s, some (.attesterSlashingInvalid i))

/-- Embeds `process_attester_slashings`: verify each record, compute its
slashable indices, slash each of them, in series. -/
def process_attester_slashings (T : EthSpecC) (ext : Externals)
    (vs : VerifySignatures) (ctxt : ConsensusContext) (spec : ChainSpec)
    (s : BeaconState) (attester_slashings : List AttesterSlashing) :
    BeaconState × Option BErr :=
  process_attester_slashings_aux ext spec 0 s attester_slashings

/-- The indexed loop of `base::process_attestations`: verify each
attestation, build its `PendingAttestation`, and append it to the bucket
selected by the attestation's target epoch. -/
def base_process_attestations_aux (T : EthSpecC) (ext : Externals)
    (pi : Nat) :
    Nat → BeaconState → List Attestation → BeaconState × Option BErr
  | _, s, [] => (s, none)
  | i, s, att :: rest =>
    match ext.verifyAttestation s att with
    | none => (s, some (.attestationInvalid i))
    | some _ =>
      match safe_sub s.slot att.data.slot with
      | .error e => (s, some e)
      | .ok delay =>
        let pa : PendingAttestation :=
          { aggregation_bits := att.aggregation_bits
            data := att.data
            inclusion_delay := delay
            proposer_index := pi }
        if att.data.target.epoch = current_epoch T s then
          match s.current_epoch_attestations with
          | none => (s, some .beaconStateError)
          | some l =>
            match push_limited T.max_pending_attestations l pa with
            | .error e => (s, some e)
            | .ok l1 =>
              base_process_attestations_aux T ext pi (i + 1)
                { s with current_epoch_attestations := some l1 } rest
        else
          match s.previous_epoch_attestations with
          | none => (s, some .beaconStateError)
          | some l =>
            match push_limited T.max_pending_attestations l pa with
            | .error e => (s, some e)
            | .ok l1 =>
              base_process_attestations_aux T ext pi (i + 1)
                { s with previous_epoch_attestations := some l1 } rest

/-- Embeds `base::process_attestations`: the legacy (pre-upgrade) attestation
variant — ensure the previous-epoch committee cache, resolve the proposer
index, then accumulate `PendingAttestation` records. -/
def base_process_attestations (T : EthSpecC) (ext : Externals)
    (vs : VerifySignatures) (ctxt : ConsensusContext) (spec : ChainSpec)
    (s : BeaconState) (attestations : List Attestation) :
    BeaconState × Option BErr :=
  if ext.buildCommitteeCachePrev s then
    match ctxt_proposer_index ext ctxt s with
    | none => (s, some .beaconStateError)
    | some pi => base_process_attestations_aux T ext pi 0 s attestations
  else (s, some .committeeCacheError)

/-- The inner flag loop of `altair_deneb::process_attestation` for one
attesting validator: walk the enumerated `PARTICIPATION_FLAG_WEIGHTS`,
setting each newly-satisfied, not-yet-set flag and accruing
`base_reward × weight` into the proposer-reward numerator. -/
def attestation_flag_loop (T : EthSpecC) (ext : Externals)
    (target_epoch : Nat) (pfi : List Nat) (brpi vindex : Nat) :
    List (Nat × Nat) → BeaconState → Nat → BeaconState × Nat × Option BErr
  | [], s, num => (s, num, none)
  | (flag_index, weight) :: rest, s, num =>
    match get_epoch_participation T s target_epoch with
    | .error e => (s, num, some e)
    | .ok ep =>
      match ep.get? vindex with
      | none => (s, num, some (.participationOutOfBounds vindex))
      | some vp =>
        if pfi.contains flag_index && !(has_flag vp flag_index) then
          let s1 := set_epoch_participation T s target_epoch
            (ep.set vindex (add_flag vp flag_index))
          match ext.baseReward s1 vindex brpi with
          | none => (s1, num, some .beaconStateError)
          | some br =>
            match safe_mul br weight with
            | .error e => (s1, num, some e)
            | .ok contrib =>
              match safe_add num contrib with
              | .error e => (s1, num, some e)
              | .ok num1 =>
                if flag_index = TIMELY_TARGET_FLAG_INDEX then
                  if ext.onTargetFlagSet s1 target_epoch vindex then
                    attestation_flag_loop T ext target_epoch pfi brpi vindex
                      rest s1 num1
                  else (s1, num1, some .progressiveBalancesError)
                else
                  attestation_flag_loop T ext target_epoch pfi brpi vindex
                    rest s1 num1
        else
          attestation_flag_loop T ext target_epoch pfi brpi vindex rest s num

/-- The outer validator loop of `altair_deneb::process_attestation`:
run the flag loop for every attesting validator index. -/
def attestation_indices_loop (T : EthSpecC) (ext : Externals)
    (target_epoch : Nat) (pfi : List Nat) (brpi : Nat) :
    List Nat → BeaconState → Nat → BeaconState × Nat × Option BErr
  | [], s, num => (s, num, none)
  | idx :: rest, s, num =>
    match attestation_flag_loop T ext target_epoch pfi brpi idx
        PARTICIPATION_FLAG_WEIGHTS.enum s num with
    | (s1, num1, some e) => (s1, num1, some e)
    | (s1, num1, none) =>
      attestation_indices_loop T ext target_epoch pfi brpi rest s1 num1

/-- Embeds `altair_deneb::process_attestation`: the flag-based variant for one
attestation — build both committee caches, resolve the proposer index,
verify the attestation, derive the participation flag indices, update the
flags over all attesting validators while accruing the proposer-reward
numerator, then divide by the proposer-reward denominator and credit the
proposer. -/
def altair_process_attestation (T : EthSpecC) (ext : Externals)
    (vs : VerifySignatures) (ctxt : ConsensusContext) (spec : ChainSpec)
    (s : BeaconState) (att : Attestation) (att_index : Nat) :
    BeaconState × Option BErr :=
  if ext.buildCommitteeCachePrev s then
    if ext.buildCommitteeCacheCurr s then
      match ctxt_proposer_index ext ctxt s with
      | none => (s, some .beaconStateError)
      | some pi =>
        match ext.verifyAttestation s att with
        | none => (s, some (.attestationInvalid att_index))
        | some attesting_indices =>
          match safe_sub s.slot att.data.slot with
          | .error e => (s, some e)
          | .ok inclusion_delay =>
            match ext.participationFlagIndices s att.data inclusion_delay with
            | none => (s, some .beaconStateError)
            | some pfi =>
              match get_total_active_balance s with
              | .error e => (s, some e)
              | .ok tab =>
                match ext.baseRewardPerIncrement tab with
                | none => (s, some .arithError)
                | some brpi =>
                  match attestation_indices_loop T ext att.data.target.epoch
                      pfi brpi attesting_indices s 0 with
                  | (s1, _, some e) => (s1, some e)
                  | (s1, num, none) =>
                    match safe_sub WEIGHT_DENOMINATOR PROPOSER_WEIGHT with
                    | .error e => (s1, some e)
                    | .ok d1 =>
                      match safe_mul d1 WEIGHT_DENOMINATOR with
                      | .error e => (s1, some e)
                      | .ok d2 =>
                        match safe_div d2 PROPOSER_WEIGHT with
                        | .error e => (s1, some e)
                        | .ok denom =>
                          match safe_div num denom with
                          | .error e => (s1, some e)
                          | .ok reward =>
                            match increase_balance s1 pi reward with
                            | .error e => (s1, some e)
                            | .ok s2 => (s2, none)
    else (s, some .committeeCacheError)
  else (s, some .committeeCacheError)

/-- The indexed `try_for_each` of `altair_deneb::process_attestations`. -/
def altair_process_attestations_aux (T : EthSpecC) (ext : Externals)
    (vs : VerifySignatures) (ctxt : ConsensusContext) (spec : ChainSpec) :
    Nat → BeaconState → List Attestation → BeaconState × Option BErr
  | _, s, [] => (s, none)
  | i, s, att :: rest =>
    match altair_process_attestation T ext vs ctxt spec s att i with
    | (s1, some e) => (s1, some e)
    | (s1, none) =>
      altair_process_attestations_aux T ext vs ctxt spec (i + 1) s1 rest

/-- Embeds `altair_deneb::process_attestations`. -/
def altair_process_attestations (T : EthSpecC) (ext : Externals)
    (vs : VerifySignatures) (ctxt : ConsensusContext) (spec : ChainSpec)
    (s : BeaconState) (attestations : List Attestation) :
    BeaconState × Option BErr :=
  altair_process_attestations_aux T ext vs ctxt spec 0 s attestations

/-- The fork-dispatching `process_attestations` wrapper: the legacy
variant on a Base body, the flag-based variant on Altair, Merge, Capella
and Deneb bodies. -/
def process_attestations (T : EthSpecC) (ext : Externals)
    (vs : VerifySignatures) (ctxt : ConsensusContext) (spec : ChainSpec)
    (s : BeaconState) (b : BeaconBlockBody) : BeaconState × Option BErr :=
  match b.fork with
  | .base => base_process_attestations T ext vs ctxt spec s b.attestations
  | .altair => altair_process_attestations T ext vs ctxt spec s b.attestations
  | .merge => altair_process_attestations T ext vs ctxt spec s b.attestations
  | .capella => altair_process_attestations T ext vs ctxt spec s b.attestations
  | .deneb => altair_process_attestations T ext vs ctxt spec s b.attestations

/-- The indexed loop of `process_exits`: validate each exit against the
current state, then immediately initiate the exit. -/
def process_exits_aux (ext : Externals) (spec : ChainSpec) :
    Nat → BeaconState → List SignedVoluntaryExit → BeaconState × Option BErr
  | _, s, [] => (s, none)
  | i, s, ex :: rest =>
    if ext.verifyExit s ex then
      match ext.initiateValidatorExit s ex.message.validator_index with
      | .error e => (s, some e)
      | .ok s1 => process_exits_aux ext spec (i + 1) s1 rest
    else (s, some (.exitInvalid i))

/-- Embeds `process_exits`. -/
def process_exits (T : EthSpecC) (ext : Externals) (vs : VerifySignatures)
    (spec : ChainSpec) (s : BeaconState)
    (voluntary_exits : List SignedVoluntaryExit) : BeaconState × Option BErr :=
  process_exits_aux ext spec 0 s voluntary_exits

/-- The indexed loop of `process_bls_to_execution_changes`: validate each
change, then overwrite the validator's withdrawal credentials. -/
def process_bls_to_execution_changes_aux (ext : Externals) (spec : ChainSpec) :
    Nat → BeaconState → List SignedBlsToExecutionChange →
    BeaconState × Option BErr
  | _, s, [] => (s, none)
  | i, s, ch :: rest =>
    if ext.verifyBlsChange s ch then
      match get_validator s ch.message.validator_index with
      | .error e => (s, some e)
      | .ok v =>
        let s1 := set_validator s ch.message.validator_index
          (ext.changeWithdrawalCredentials v ch.message.to_execution_address)
        process_bls_to_execution_changes_aux ext spec (i + 1) s1 rest
    else (s, some (.blsExecutionChangeInvalid i))

/-- Embeds `process_bls_to_execution_changes`. -/
def process_bls_to_execution_changes (T : EthSpecC) (ext : Externals)
    (vs : VerifySignatures) (spec : ChainSpec) (s : BeaconState)
    (changes : List SignedBlsToExecutionChange) : BeaconState × Option BErr :=
  process_bls_to_execution_changes_aux ext spec 0 s changes

/-- Push onto an optional per-fork collection: a no-op when the fork lacks
the collection (`if let Ok(..) = state...mut()`), a capacity-checked
append when it is present. -/
def push_optional {α : Type} (limit : Nat) (l? : Option (List α)) (x : α) :
    Except BErr (Option (List α)) :=
  match l? with
  | none => .ok none
  | some l =>
    match push_limited limit l x with
    | .error e => .error e
    | .ok l1 => .ok (some l1)

/-- Embeds `process_deposit`: optionally verify the Merkle proof, advance the
deposit index, then either top up the existing validator with this public
key, silently skip on a bad registration signature, or create a new
validator and extend every per-validator collection the fork carries. -/
def process_deposit (T : EthSpecC) (ext : Externals) (spec : ChainSpec)
    (s : BeaconState) (d : Deposit) (verify_merkle_proof : Bool) :
    BeaconState × Option BErr :=
  let deposit_index := s.eth1_deposit_index
  if verify_merkle_proof && !(ext.verifyDepositMerkleProof s d s.eth1_deposit_index) then
    (s, some (.depositInvalid deposit_index))
  else
    match safe_add s.eth1_deposit_index 1 with
    | .error e => (s, some e)
    | .ok n =>
      let s0 := { s with eth1_deposit_index := n }
      match get_existing_validator_index s0 d.data.pubkey with
      | some index =>
        match increase_balance s0 index d.data.amount with
        | .error e => (s0, some e)
        | .ok s1 => (s1, none)
      | none =>
        if ext.verifyDepositSignature d.data then
          match safe_rem d.data.amount spec.effective_balance_increment with
          | .error e => (s0, some e)
          | .ok r =>
            match safe_sub d.data.amount r with
            | .error e => (s0, some e)
            | .ok q =>
              let v : Validator :=
                { pubkey := d.data.pubkey
                  withdrawal_credentials := d.data.withdrawal_credentials
                  activation_eligibility_epoch := spec.far_future_epoch
                  activation_epoch := spec.far_future_epoch
                  exit_epoch := spec.far_future_epoch
                  withdrawable_epoch := spec.far_future_epoch
                  effective_balance := min q spec.max_effective_balance
                  slashed := false }
              match push_limited T.validator_registry_limit s0.validators v with
              | .error e => (s0, some e)
              | .ok vl =>
                let s1 := { s0 with validators := vl }
                match push_limited T.validator_registry_limit s1.balances d.data.amount with
                | .error e => (s1, some e)
                | .ok bl =>
                  let s2 := { s1 with balances := bl }
                  match push_optional T.validator_registry_limit
                      s2.previous_epoch_participation 0 with
                  | .error e => (s2, some e)
                  | .ok p1 =>
                    let s3 := { s2 with previous_epoch_participation := p1 }
                    match push_optional T.validator_registry_limit
                        s3.current_epoch_participation 0 with
                    | .error e => (s3, some e)
                    | .ok p2 =>
                      let s4 := { s3 with current_epoch_participation := p2 }
                      match push_optional T.validator_registry_limit
                          s4.inactivity_scores 0 with
                      | .error e => (s4, some e)
                      | .ok p3 =>
                        ({ s4 with inactivity_scores := p3 }, none)
        else (s0, none)

/-- The read-only Merkle-proof phase of `process_deposits`: check each
deposit's inclusion proof at `eth1_deposit_index + i`, surfacing the
earliest-indexed failure. -/
def verify_deposit_proofs_loop (ext : Externals) (s : BeaconState) :
    Nat → List Deposit → Option BErr
  | _, [] => none
  | i, d :: rest =>
    match safe_add s.eth1_deposit_index i with
    | .error e => some e
    | .ok idx =>
      if ext.verifyDepositMerkleProof s d idx then
        verify_deposit_proofs_loop ext s (i + 1) rest
      else some (.depositInvalid i)

/-- The strictly sequential application phase of `process_deposits`. -/
def apply_deposits_loop (T : EthSpecC) (ext : Externals) (spec : ChainSpec) :
    List Deposit → BeaconState → BeaconState × Option BErr
  | [], s => (s, none)
  | d :: rest, s =>
    match process_deposit T ext spec s d false with
    | (s1, some e) => (s1, some e)
    | (s1, none) => apply_deposits_loop T ext spec rest s1

/-- Embeds `process_deposits`: check the block carries exactly the expected
number of deposits, verify all Merkle proofs, then apply the deposits in
series. -/
def process_deposits (T : EthSpecC) (ext : Externals) (spec : ChainSpec)
    (s : BeaconState) (deposits : List Deposit) : BeaconState × Option BErr :=
  match get_outstanding_deposit_len s with
  | .error e => (s, some e)
  | .ok outstanding =>
    let expected := min T.max_deposits outstanding
    if deposits.length = expected then
      match verify_deposit_proofs_loop ext s 0 deposits with
      | some e => (s, some e)
      | none => apply_deposits_loop T ext spec deposits s
    else (s, some (.depositCountInvalid expected deposits.length))

/-- Embeds `process_operations`: the orchestrator — proposer slashings, attester
slashings, attestations, deposits, voluntary exits, then (on forks whose
body carries them) withdrawal-address changes, short-circuiting on the
first stage error. -/
def process_operations (T : EthSpecC) (ext : Externals)
    (vs : VerifySignatures) (ctxt : ConsensusContext) (spec : ChainSpec)
    (s : BeaconState) (b : BeaconBlockBody) : BeaconState × Option BErr :=
  match process_proposer_slashings T ext vs ctxt spec s b.proposer_slashings with
  | (s1, some e) => (s1, some e)
  | (s1, none) =>
    match process_attester_slashings T ext vs ctxt spec s1 b.attester_slashings with
    | (s2, some e) => (s2, some e)
    | (s2, none) =>
      match process_attestations T ext vs ctxt spec s2 b with
      | (s3, some e) => (s3, some e)
      | (s3, none) =>
        match process_deposits T ext spec s3 b.deposits with
        | (s4, some e) => (s4, some e)
        | (s4, none) =>
          match process_exits T ext vs spec s4 b.voluntary_exits with
          | (s5, some e) => (s5, some e)
          | (s5, none) =>
            match body_bls_to_execution_changes b with
            | some changes =>
              process_bls_to_execution_changes T ext vs spec s5 changes
            | none => (s5, none)

/-- Room check for an optional per-fork collection: satisfied when the
collection is absent or strictly below its capacity. -/
def opt_has_room {α : Type} (limit : Nat) (l? : Option (List α)) : Bool :=
  match l? with
  | none => true
  | some l => l.length < limit

theorem push_optional_of_room {α : Type} {limit : Nat}
    {l? : Option (List α)} (x : α) (h : opt_has_room limit l? = true) :
    push_optional limit l? x = .ok (l?.map (fun l => l ++ [x])) := by
  cases l? with
  | none => rfl
  | some l =>
    simp only [opt_has_room, decide_eq_true_eq] at h
    simp [push_optional, push_limited, h]

/-- A chain-configuration fixture. -/
def specA : ChainSpec :=
  { far_future_epoch := 1125899906842624
    effective_balance_increment := 1000000000
    max_effective_balance := 32000000000
    min_slashing_penalty_quotient := 32 }

/-- A type-level-constants fixture. -/
def TA : EthSpecC :=
  { slots_per_epoch := 32
    max_deposits := 16
    max_pending_attestations := 4096
    validator_registry_limit := 1000 }

/-- A validator fixture: active, never slashed. -/
def valA : Validator :=
  { pubkey := 1
    withdrawal_credentials := 11
    activation_eligibility_epoch := 0
    activation_epoch := 0
    exit_epoch := 1125899906842624
    withdrawable_epoch := 1125899906842624
    effective_balance := 32000000000
    slashed := false }

/-- A one-validator state fixture with every per-fork collection present. -/
def stA : BeaconState :=
  { slot := 64
    validators := [valA]
    balances := [32000000000]
    eth1_deposit_index := 0
    eth1_data_deposit_count := 0
    previous_epoch_attestations := some []
    current_epoch_attestations := some []
    previous_epoch_participation := some [0]
    current_epoch_participation := some [0]
    inactivity_scores := some [0]
    total_active_balance := some 32000000000 }

/-- An external-collaborator fixture whose checks all succeed; exit
initiation leaves the modelled state unchanged. -/
def extOk : Externals :=
  { computeProposerIndex := fun _ => some 0
    buildCommitteeCachePrev := fun _ => true
    buildCommitteeCacheCurr := fun _ => true
    verifyAttestation := fun _ _ => some []
    participationFlagIndices := fun _ _ _ => some []
    baseRewardPerIncrement := fun _ => some 1
    baseReward := fun _ _ _ => some 1
    onTargetFlagSet := fun _ _ _ => true
    verifyProposerSlashingSig := fun _ _ => true
    verifyAttesterSlashing := fun _ _ => true
    getSlashableIndices := fun _ _ => some []
    initiateValidatorExit := fun s _ => .ok s
    verifyExit := fun _ _ => true
    verifyBlsChange := fun _ _ => true
    changeWithdrawalCredentials := fun v a => { v with withdrawal_credentials := a }
    verifyDepositMerkleProof := fun _ _ _ => true
    verifyDepositSignature := fun _ => true }

/-- Like `extOk` but the deposit registration-signature check fails. -/
def extSigFail : Externals :=
  { extOk with verifyDepositSignature := fun _ => false }

/-- A deposit fixture for an unregistered public key. -/
def depA : Deposit :=
  { proof := []
    data := { pubkey := 5, withdrawal_credentials := 77, amount := 33000000001, signature := 0 } }

/-- C8: `process_deposits` fails with a deposit-count error, on the
unchanged input state and without consulting any external verifier,
whenever the block's deposit count differs from
`min(per-block cap, outstanding deposits)`. -/
theorem process_deposits_count_mismatch_fails (T : EthSpecC)
    (ext : Externals) (spec : ChainSpec) (s : BeaconState)
    (deposits : List Deposit)
    (hle : s.eth1_deposit_index ≤ s.eth1_data_deposit_count)
    (hne : deposits.length ≠
      min T.max_deposits (s.eth1_data_deposit_count - s.eth1_deposit_index)) :
    process_deposits T ext spec s deposits =
      (s, some (.depositCountInvalid
        (min T.max_deposits (s.eth1_data_deposit_count - s.eth1_deposit_index))
        deposits.length)) := by
  unfold process_deposits get_outstanding_deposit_len safe_sub
  simp [hle, hne]

theorem process_deposits_count_mismatch_fails_witness :
    process_deposits TA extOk specA stA [depA] =
      (stA, some (.depositCountInvalid
        (min TA.max_deposits (stA.eth1_data_deposit_count - stA.eth1_deposit_index))
        [depA].length)) :=
  process_deposits_count_mismatch_fails TA extOk specA stA [depA]
    (by decide) (by decide)

/-- C2: a deposit whose public key matches no registered validator and
whose registration signature is invalid is processed without error: the
deposit index advances by exactly one and the validator and balance
collections are untouched. -/
theorem process_deposit_silent_skip (T : EthSpecC) (ext : Externals)
    (spec : ChainSpec) (s : BeaconState) (d : Deposit)
    (hover : s.eth1_deposit_index + 1 < U64_LIMIT)
    (hnew : get_existing_validator_index s d.data.pubkey = none)
    (hsig : ext.verifyDepositSignature d.data = false) :
    process_deposit T ext spec s d false =
      ({ s with eth1_deposit_index := s.eth1_deposit_index + 1 }, none) ∧
    (process_deposit T ext spec s d false).1.validators = s.validators ∧
    (process_deposit T ext spec s d false).1.balances = s.balances := by
  have key : process_deposit T ext spec s d false =
      ({ s with eth1_deposit_index := s.eth1_deposit_index + 1 }, none) := by
    unfold process_deposit safe_add
    simp only [get_existing_validator_index] at hnew
    simp [hover, hnew, hsig, get_existing_validator_index]
  refine ⟨key, ?_, ?_⟩ <;> rw [key]

theorem process_deposit_silent_skip_witness :
    process_deposit TA extSigFail specA stA depA false =
      ({ stA with eth1_deposit_index := stA.eth1_deposit_index + 1 }, none) :=
  (process_deposit_silent_skip TA extSigFail specA stA depA
    (by decide) (by decide) (by rfl)).1

/-- C10: a deposit that creates a new validator appends the raw deposit
amount to `balances` while the new validator's effective balance is the
quantized, capped `min(amount − amount mod increment, max_effective_balance)`;
when the amount exceeds the cap or is not a multiple of the increment the
stored balance strictly exceeds the effective balance. -/
theorem process_deposit_new_validator (T : EthSpecC) (ext : Externals)
    (spec : ChainSpec) (s : BeaconState) (d : Deposit)
    (hover : s.eth1_deposit_index + 1 < U64_LIMIT)
    (hnew : get_existing_validator_index s d.data.pubkey = none)
    (hsig : ext.verifyDepositSignature d.data = true)
    (hinc : spec.effective_balance_increment ≠ 0)
    (hvl : s.validators.length < T.validator_registry_limit)
    (hbl : s.balances.length < T.validator_registry_limit)
    (hpl : opt_has_room T.validator_registry_limit s.previous_epoch_participation = true)
    (hcl : opt_has_room T.validator_registry_limit s.current_epoch_participation = true)
    (hil : opt_has_room T.validator_registry_limit s.inactivity_scores = true) :
    process_deposit T ext spec s d false =
      ({ s with
          eth1_deposit_index := s.eth1_deposit_index + 1
          validators := s.validators ++
            [{ pubkey := d.data.pubkey
               withdrawal_credentials := d.data.withdrawal_credentials
               activation_eligibility_epoch := spec.far_future_epoch
               activation_epoch := spec.far_future_epoch
               exit_epoch := spec.far_future_epoch
               withdrawable_epoch := spec.far_future_epoch
               effective_balance :=
                 min (d.data.amount - d.data.amount % spec.effective_balance_increment)
                   spec.max_effective_balance
               slashed := false }]
          balances := s.balances ++ [d.data.amount]
          previous_epoch_participation :=
            s.previous_epoch_participation.map (fun l => l ++ [0])
          current_epoch_participation :=
            s.current_epoch_participation.map (fun l => l ++ [0])
          inactivity_scores := s.inactivity_scores.map (fun l => l ++ [0]) },
        none) ∧
    (spec.max_effective_balance < d.data.amount ∨
        d.data.amount % spec.effective_balance_increment ≠ 0 →
      min (d.data.amount - d.data.amount % spec.effective_balance_increment)
          spec.max_effective_balance < d.data.amount) := by
  constructor
  · have hmod : d.data.amount % spec.effective_balance_increment ≤ d.data.amount :=
      Nat.mod_le _ _
    unfold process_deposit safe_add safe_rem safe_sub push_limited
    simp only [get_existing_validator_index] at hnew
    simp [hover, hnew, hsig, hinc, hmod, hvl, hbl, get_existing_validator_index,
      push_optional_of_room _ hpl, push_optional_of_room _ hcl,
      push_optional_of_room _ hil]
  · intro hcase
    have hmodle : d.data.amount % spec.effective_balance_increment ≤ d.data.amount :=
      Nat.mod_le _ _
    rcases hcase with hcap | hrem
    · exact lt_of_le_of_lt (min_le_right _ _) hcap
    · have hpos : 0 < d.data.amount % spec.effective_balance_increment :=
        Nat.pos_of_ne_zero hrem
      exact lt_of_le_of_lt (min_le_left _ _) (by omega)

theorem process_deposit_new_validator_witness :
    (process_deposit TA extOk specA stA depA false).2 = none ∧
    (process_deposit TA extOk specA stA depA false).1.balances =
      stA.balances ++ [33000000001] ∧
    min (depA.data.amount - depA.data.amount % specA.effective_balance_increment)
      specA.max_effective_balance < depA.data.amount := by
  have h := process_deposit_new_validator TA extOk specA stA depA
    (by decide) (by decide) (by rfl) (by decide) (by decide) (by decide)
    (by decide) (by decide) (by decide)
  refine ⟨?_, ?_, h.2 (by decide)⟩
  · rw [h.1]
  · rw [h.1]
    rfl

theorem slash_validator_marks_slashed (ext : Externals) (spec : ChainSpec)
    (s : BeaconState) (v : Nat) (s1 : BeaconState)
    (h : slash_validator ext spec s v = .ok s1) :
    ∃ vr, s1.validators.get? v = some vr ∧ vr.slashed = true := by
  unfold slash_validator at h
  cases hexit : ext.initiateValidatorExit s v with
  | error e => simp only [hexit] at h; exact Except.noConfusion h
  | ok sA =>
    simp only [hexit] at h
    cases hval : get_validator sA v with
    | error e => simp only [hval] at h; exact Except.noConfusion h
    | ok vA =>
      simp only [hval] at h
      cases hdiv : safe_div vA.effective_balance spec.min_slashing_penalty_quotient with
      | error e => simp only [hdiv] at h; exact Except.noConfusion h
      | ok p =>
        simp only [hdiv] at h
        have hvlen : v < sA.validators.length := by
          unfold get_validator at hval
          cases hg : sA.validators.get? v with
          | none => simp only [hg] at hval; exact Except.noConfusion hval
          | some w =>
            obtain ⟨hlt, -⟩ := List.get?_eq_some.mp hg
            exact hlt
        unfold decrease_balance at h
        cases hb : (set_validator sA v { vA with slashed := true }).balances.get? v with
        | none => simp only [hb] at h; exact Except.noConfusion h
        | some b =>
          simp only [hb, Except.ok.injEq] at h
          refine ⟨{ vA with slashed := true }, ?_, rfl⟩
          rw [← h]
          simp only [set_validator]
          exact List.get?_set_eq_of_lt _ hvlen

theorem verify_proposer_slashing_fails_on_slashed (T : EthSpecC)
    (ext : Externals) (vs : VerifySignatures) (s : BeaconState)
    (ps : ProposerSlashing) (vr : Validator)
    (hget : s.validators.get? ps.signed_header_1.message.proposer_index = some vr)
    (hslashed : vr.slashed = true) :
    ∃ r, verify_proposer_slashing T ext vs s ps = some r := by
  have hns : is_slashable_validator vr (current_epoch T s) = false := by
    simp [is_slashable_validator, hslashed]
  unfold verify_proposer_slashing
  by_cases h1 : ps.signed_header_1.message.slot = ps.signed_header_2.message.slot
  · by_cases h2 : ps.signed_header_1.message.proposer_index =
        ps.signed_header_2.message.proposer_index
    · by_cases h3 : ps.signed_header_1.message = ps.signed_header_2.message
      · exact ⟨.headersIdentical, by simp [h1, h2, h3]⟩
      · refine ⟨.notSlashable, ?_⟩
        rw [List.get?_eq_getElem?] at hget
        simp [h1, h3, ← h2, hget, hns]
    · exact ⟨.proposerMismatch, by simp [h1, h2]⟩
  · exact ⟨.slotMismatch, by simp [h1]⟩

/-- C3: when a block carries two proposer-slashing records that target the
same validator index and the first one applies cleanly, the processor
slashes the validator exactly once (the result state is exactly that of
the single slashing) and then fails with an error carrying the second
record's index, because the validator is already slashed when the second
record is validated. -/
theorem process_proposer_slashings_duplicate_target (T : EthSpecC)
    (ext : Externals) (vs : VerifySignatures) (ctxt : ConsensusContext)
    (spec : ChainSpec) (s s1 : BeaconState) (r1 r2 : ProposerSlashing)
    (hsame : r2.signed_header_1.message.proposer_index =
      r1.signed_header_1.message.proposer_index)
    (hv1 : verify_proposer_slashing T ext vs s r1 = none)
    (hsl : slash_validator ext spec s r1.signed_header_1.message.proposer_index = .ok s1) :
    (∃ reason, process_proposer_slashings T ext vs ctxt spec s [r1, r2] =
        (s1, some (.proposerSlashingInvalid 1 reason))) ∧
    (∃ vr, s1.validators.get? r1.signed_header_1.message.proposer_index =
        some vr ∧ vr.slashed = true) := by
  obtain ⟨vr, hget, hslashed⟩ := slash_validator_marks_slashed ext spec s _ s1 hsl
  refine ⟨?_, ⟨vr, hget, hslashed⟩⟩
  obtain ⟨r, hr⟩ := verify_proposer_slashing_fails_on_slashed T ext vs s1 r2 vr
    (by rw [hsame]; exact hget) hslashed
  refine ⟨r, ?_⟩
  unfold process_proposer_slashings process_proposer_slashings_aux
  simp only [hv1, hsl]
  unfold process_proposer_slashings_aux
  simp only [hr]

/-- A proposer-slashing fixture: two differing headers, same slot and
proposer index `0`. -/
def psr1 : ProposerSlashing :=
  { signed_header_1 :=
      { message := { slot := 64, proposer_index := 0, parent_root := 1,
                     state_root := 0, body_root := 0 }, signature := 0 }
    signed_header_2 :=
      { message := { slot := 64, proposer_index := 0, parent_root := 2,
                     state_root := 0, body_root := 0 }, signature := 0 } }

/-- A second proposer-slashing fixture targeting the same validator. -/
def psr2 : ProposerSlashing :=
  { signed_header_1 :=
      { message := { slot := 64, proposer_index := 0, parent_root := 3,
                     state_root := 0, body_root := 0 }, signature := 0 }
    signed_header_2 :=
      { message := { slot := 64, proposer_index := 0, parent_root := 4,
                     state_root := 0, body_root := 0 }, signature := 0 } }

/-- Embeds `stA` after validator `0` has been slashed once (flag set, immediate
penalty `32000000000 / 32` applied). -/
def stSlashed : BeaconState :=
  { stA with
      validators := [{ valA with slashed := true }]
      balances := [31000000000] }

theorem process_proposer_slashings_duplicate_target_witness :
    (∃ reason, process_proposer_slashings TA extOk .no { proposer_index := some 0 }
        specA stA [psr1, psr2] =
        (stSlashed, some (.proposerSlashingInvalid 1 reason))) ∧
    (∃ vr, stSlashed.validators.get? psr1.signed_header_1.message.proposer_index =
        some vr ∧ vr.slashed = true) :=
  process_proposer_slashings_duplicate_target TA extOk .no
    { proposer_index := some 0 } specA stA stSlashed psr1 psr2
    (by decide) (by decide) (by rfl)

theorem process_attestations_congr (T : EthSpecC) (ext : Externals)
    (vs : VerifySignatures) (ctxt : ConsensusContext) (spec : ChainSpec)
    (s : BeaconState) (b b' : BeaconBlockBody)
    (hfork : b'.fork = b.fork) (hatts : b'.attestations = b.attestations) :
    process_attestations T ext vs ctxt spec s b' =
      process_attestations T ext vs ctxt spec s b := by
  unfold process_attestations
  rw [hfork, hatts]

/-- C6: the attestation-processing variant is selected purely from the
block body's fork tag — a Base body runs the legacy accumulation variant,
any Altair/Merge/Capella/Deneb body runs the flag-based variant, and the
result depends on the body only through its fork tag and its attestation
list. -/
theorem process_attestations_fork_dispatch (T : EthSpecC) (ext : Externals)
    (vs : VerifySignatures) (ctxt : ConsensusContext) (spec : ChainSpec)
    (s : BeaconState) (b b' : BeaconBlockBody)
    (hfork : b'.fork = b.fork) (hatts : b'.attestations = b.attestations) :
    process_attestations T ext vs ctxt spec s b' =
      process_attestations T ext vs ctxt spec s b ∧
    (b.fork = .base →
      process_attestations T ext vs ctxt spec s b =
        base_process_attestations T ext vs ctxt spec s b.attestations) ∧
    (b.fork ≠ .base →
      process_attestations T ext vs ctxt spec s b =
        altair_process_attestations T ext vs ctxt spec s b.attestations) := by
  refine ⟨process_attestations_congr T ext vs ctxt spec s b b' hfork hatts, ?_, ?_⟩
  · intro hb
    unfold process_attestations
    rw [hb]
  · intro hb
    cases hfb : b.fork
    · exact absurd hfb hb
    all_goals simp [process_attestations, hfb]

/-- An empty Base-fork block body fixture. -/
def bodyBase : BeaconBlockBody :=
  { fork := .base
    proposer_slashings := []
    attester_slashings := []
    attestations := []
    deposits := []
    voluntary_exits := []
    bls_to_execution_changes := [] }

/-- An empty Altair-fork block body fixture. -/
def bodyAltair : BeaconBlockBody :=
  { bodyBase with fork := .altair }

theorem process_attestations_fork_dispatch_witness :
    process_attestations TA extOk .no { proposer_index := some 0 } specA stA bodyBase =
      base_process_attestations TA extOk .no { proposer_index := some 0 } specA stA
        bodyBase.attestations ∧
    process_attestations TA extOk .no { proposer_index := some 0 } specA stA bodyAltair =
      altair_process_attestations TA extOk .no { proposer_index := some 0 } specA stA
        bodyAltair.attestations :=
  ⟨(process_attestations_fork_dispatch TA extOk .no { proposer_index := some 0 }
      specA stA bodyBase bodyBase rfl rfl).2.1 rfl,
   (process_attestations_fork_dispatch TA extOk .no { proposer_index := some 0 }
      specA stA bodyAltair bodyAltair rfl rfl).2.2 (by decide)⟩

/-- C1: `process_operations` applies the block's operation lists in the
fixed order proposer slashings, attester slashings, attestations,
deposits, voluntary exits, then (only on forks whose body carries them)
withdrawal-address changes; a stage's error is returned as the overall
result — together with the state as mutated up to that point — and the
result then depends on the body only through the lists the completed
stages consume, so no later stage runs. -/
theorem process_operations_staged (T : EthSpecC) (ext : Externals)
    (vs : VerifySignatures) (ctxt : ConsensusContext) (spec : ChainSpec)
    (s : BeaconState) (b : BeaconBlockBody) :
    (∀ s1 e, process_proposer_slashings T ext vs ctxt spec s b.proposer_slashings = (s1, some e) →
      ∀ b', b'.proposer_slashings = b.proposer_slashings →
      process_operations T ext vs ctxt spec s b' = (s1, some e)) ∧
    (∀ s1 s2 e, process_proposer_slashings T ext vs ctxt spec s b.proposer_slashings = (s1, none) →
      process_attester_slashings T ext vs ctxt spec s1 b.attester_slashings = (s2, some e) →
      ∀ b', b'.proposer_slashings = b.proposer_slashings →
        b'.attester_slashings = b.attester_slashings →
      process_operations T ext vs ctxt spec s b' = (s2, some e)) ∧
    (∀ s1 s2 s3 e, process_proposer_slashings T ext vs ctxt spec s b.proposer_slashings = (s1, none) →
      process_attester_slashings T ext vs ctxt spec s1 b.attester_slashings = (s2, none) →
      process_attestations T ext vs ctxt spec s2 b = (s3, some e) →
      ∀ b', b'.proposer_slashings = b.proposer_slashings →
        b'.attester_slashings = b.attester_slashings →
        b'.fork = b.fork → b'.attestations = b.attestations →
      process_operations T ext vs ctxt spec s b' = (s3, some e)) ∧
    (∀ s1 s2 s3 s4 e, process_proposer_slashings T ext vs ctxt spec s b.proposer_slashings = (s1, none) →
      process_attester_slashings T ext vs ctxt spec s1 b.attester_slashings = (s2, none) →
      process_attestations T ext vs ctxt spec s2 b = (s3, none) →
      process_deposits T ext spec s3 b.deposits = (s4, some e) →
      ∀ b', b'.proposer_slashings = b.proposer_slashings →
        b'.attester_slashings = b.attester_slashings →
        b'.fork = b.fork → b'.attestations = b.attestations →
        b'.deposits = b.deposits →
      process_operations T ext vs ctxt spec s b' = (s4, some e)) ∧
    (∀ s1 s2 s3 s4 s5 e, process_proposer_slashings T ext vs ctxt spec s b.proposer_slashings = (s1, none) →
      process_attester_slashings T ext vs ctxt spec s1 b.attester_slashings = (s2, none) →
      process_attestations T ext vs ctxt spec s2 b = (s3, none) →
      process_deposits T ext spec s3 b.deposits = (s4, none) →
      process_exits T ext vs spec s4 b.voluntary_exits = (s5, some e) →
      ∀ b', b'.proposer_slashings = b.proposer_slashings →
        b'.attester_slashings = b.attester_slashings →
        b'.fork = b.fork → b'.attestations = b.attestations →
        b'.deposits = b.deposits →
        b'.voluntary_exits = b.voluntary_exits →
      process_operations T ext vs ctxt spec s b' = (s5, some e)) ∧
    (∀ s1 s2 s3 s4 s5, process_proposer_slashings T ext vs ctxt spec s b.proposer_slashings = (s1, none) →
      process_attester_slashings T ext vs ctxt spec s1 b.attester_slashings = (s2, none) →
      process_attestations T ext vs ctxt spec s2 b = (s3, none) →
      process_deposits T ext spec s3 b.deposits = (s4, none) →
      process_exits T ext vs spec s4 b.voluntary_exits = (s5, none) →
      process_operations T ext vs ctxt spec s b =
        (match body_bls_to_execution_changes b with
         | some changes => process_bls_to_execution_changes T ext vs spec s5 changes
         | none => (s5, none))) := by
  refine ⟨?_, ?_, ?_, ?_, ?_, ?_⟩
  · intro s1 e h1 b' hb1
    unfold process_operations
    simp only [hb1, h1]
  · intro s1 s2 e h1 h2 b' hb1 hb2
    unfold process_operations
    simp only [hb1, h1, hb2, h2]
  · intro s1 s2 s3 e h1 h2 h3 b' hb1 hb2 hbf hba
    unfold process_operations
    simp only [hb1, h1, hb2, h2,
      process_attestations_congr T ext vs ctxt spec s2 b b' hbf hba, h3]
  · intro s1 s2 s3 s4 e h1 h2 h3 h4 b' hb1 hb2 hbf hba hbd
    unfold process_operations
    simp only [hb1, h1, hb2, h2,
      process_attestations_congr T ext vs ctxt spec s2 b b' hbf hba, h3, hbd, h4]
  · intro s1 s2 s3 s4 s5 e h1 h2 h3 h4 h5 b' hb1 hb2 hbf hba hbd hbe
    unfold process_operations
    simp only [hb1, h1, hb2, h2,
      process_attestations_congr T ext vs ctxt spec s2 b b' hbf hba, h3, hbd, h4,
      hbe, h5]
  · intro s1 s2 s3 s4 s5 h1 h2 h3 h4 h5
    unfold process_operations
    simp only [h1, h2, h3, h4, h5]

theorem process_operations_staged_witness :
    process_operations TA extOk .no { proposer_index := some 0 } specA stA bodyBase =
      (stA, none) := by
  have h := (process_operations_staged TA extOk .no { proposer_index := some 0 }
    specA stA bodyBase).2.2.2.2.2 stA stA stA stA stA rfl rfl rfl rfl rfl
  simpa using h

theorem err_pair_ne_ok {s s' : BeaconState} {e : BErr}
    (h : ((s, some e) : BeaconState × Option BErr) = (s', none)) : False := by
  simp at h

theorem push_limited_ok {α : Type} {lim : Nat} {l l' : List α} {x : α}
    (h : push_limited lim l x = .ok l') : l' = l ++ [x] := by
  unfold push_limited at h
  split at h
  · injection h with h
    exact h.symm
  · exact Except.noConfusion h

theorem push_optional_ok {α : Type} {lim : Nat} {l? o : Option (List α)}
    {x : α} (h : push_optional lim l? x = .ok o) :
    o = l?.map (fun l => l ++ [x]) := by
  cases l? with
  | none =>
    simp only [push_optional] at h
    injection h with h
    exact h.symm
  | some l =>
    simp only [push_optional] at h
    cases hp : push_limited lim l x with
    | error e => simp only [hp] at h; exact Except.noConfusion h
    | ok l1 =>
      simp only [hp, Except.ok.injEq] at h
      rw [← h, push_limited_ok hp]
      rfl

/-- Alignment of an optional per-fork collection with the validator
count: absent, or of exactly that length. -/
def opt_aligned {α : Type} (l? : Option (List α)) (n : Nat) : Bool :=
  match l? with
  | none => true
  | some l => l.length == n

/-- The spec's index-alignment invariant: `Balances` and every per-fork
per-validator collection that is present have exactly one entry per
validator. -/
def collections_aligned (s : BeaconState) : Bool :=
  (s.balances.length == s.validators.length) &&
  opt_aligned s.previous_epoch_participation s.validators.length &&
  opt_aligned s.current_epoch_participation s.validators.length &&
  opt_aligned s.inactivity_scores s.validators.length

theorem opt_aligned_map_append {α : Type} {l? : Option (List α)} {n : Nat}
    (x : α) (h : opt_aligned l? n = true) :
    opt_aligned (l?.map (fun l => l ++ [x])) (n + 1) = true := by
  cases l? with
  | none => rfl
  | some l =>
    simp only [opt_aligned, beq_iff_eq] at h ⊢
    simp [h]

theorem opt_map_isSome {α β : Type} (f : α → β) (o : Option α) :
    (o.map f).isSome = o.isSome := by
  cases o <;> rfl

theorem process_deposit_growth (T : EthSpecC) (ext : Externals)
    (spec : ChainSpec) (s : BeaconState) (d : Deposit) (s' : BeaconState)
    (h : process_deposit T ext spec s d false = (s', none))
    (ha : collections_aligned s = true) :
    collections_aligned s' = true ∧
    s.validators.length ≤ s'.validators.length ∧
    s'.previous_epoch_participation.isSome = s.previous_epoch_participation.isSome ∧
    s'.current_epoch_participation.isSome = s.current_epoch_participation.isSome ∧
    s'.inactivity_scores.isSome = s.inactivity_scores.isSome := by
  simp only [process_deposit, Bool.false_and, Bool.false_eq_true, if_false] at h
  cases hadd : safe_add s.eth1_deposit_index 1 with
  | error e => simp only [hadd] at h; exact (err_pair_ne_ok h).elim
  | ok n =>
    simp only [hadd] at h
    cases hfind : get_existing_validator_index { s with eth1_deposit_index := n } d.data.pubkey with
    | some index =>
      simp only [hfind] at h
      cases hib : increase_balance { s with eth1_deposit_index := n } index d.data.amount with
      | error e => simp only [hib] at h; exact (err_pair_ne_ok h).elim
      | ok s1 =>
        simp only [hib, Prod.mk.injEq] at h
        obtain ⟨h1, -⟩ := h
        subst h1
        unfold increase_balance at hib
        cases hb : ({ s with eth1_deposit_index := n } : BeaconState).balances.get? index with
        | none => simp only [hb] at hib; exact Except.noConfusion hib
        | some b =>
          simp only [hb] at hib
          cases hsa : safe_add b d.data.amount with
          | error e => simp only [hsa] at hib; exact Except.noConfusion hib
          | ok b1 =>
            simp only [hsa, Except.ok.injEq] at hib
            subst hib
            refine ⟨?_, Nat.le_refl _, rfl, rfl, rfl⟩
            simpa [collections_aligned, opt_aligned, List.length_set] using ha
    | none =>
      simp only [hfind] at h
      cases hsig : ext.verifyDepositSignature d.data with
      | false =>
        simp only [hsig, Bool.false_eq_true, if_false] at h
        simp only [Prod.mk.injEq] at h
        obtain ⟨h1, -⟩ := h
        subst h1
        exact ⟨ha, Nat.le_refl _, rfl, rfl, rfl⟩
      | true =>
        simp only [hsig, if_true] at h
        cases hrem : safe_rem d.data.amount spec.effective_balance_increment with
        | error e => simp only [hrem] at h; exact (err_pair_ne_ok h).elim
        | ok r =>
          simp only [hrem] at h
          cases hsub : safe_sub d.data.amount r with
          | error e => simp only [hsub] at h; exact (err_pair_ne_ok h).elim
          | ok q =>
            simp only [hsub] at h
            cases hp1 : push_limited T.validator_registry_limit
                ({ s with eth1_deposit_index := n } : BeaconState).validators
                { pubkey := d.data.pubkey
                  withdrawal_credentials := d.data.withdrawal_credentials
                  activation_eligibility_epoch := spec.far_future_epoch
                  activation_epoch := spec.far_future_epoch
                  exit_epoch := spec.far_future_epoch
                  withdrawable_epoch := spec.far_future_epoch
                  effective_balance := min q spec.max_effective_balance
                  slashed := false } with
            | error e => simp only [hp1] at h; exact (err_pair_ne_ok h).elim
            | ok vl =>
              simp only [hp1] at h
              cases hp2 : push_limited T.validator_registry_limit s.balances d.data.amount with
              | error e => simp only [hp2] at h; exact (err_pair_ne_ok h).elim
              | ok bl =>
                simp only [hp2] at h
                cases hq1 : push_optional T.validator_registry_limit
                    s.previous_epoch_participation 0 with
                | error e => simp only [hq1] at h; exact (err_pair_ne_ok h).elim
                | ok p1 =>
                  simp only [hq1] at h
                  cases hq2 : push_optional T.validator_registry_limit
                      s.current_epoch_participation 0 with
                  | error e => simp only [hq2] at h; exact (err_pair_ne_ok h).elim
                  | ok p2 =>
                    simp only [hq2] at h
                    cases hq3 : push_optional T.validator_registry_limit
                        s.inactivity_scores 0 with
                    | error e => simp only [hq3] at h; exact (err_pair_ne_ok h).elim
                    | ok p3 =>
                      simp only [hq3, Prod.mk.injEq] at h
                      obtain ⟨h1, -⟩ := h
                      subst h1
                      have hvl := push_limited_ok hp1
                      have hbl := push_limited_ok hp2
                      have hq1' := push_optional_ok hq1
                      have hq2' := push_optional_ok hq2
                      have hq3' := push_optional_ok hq3
                      subst hvl hbl hq1' hq2' hq3'
                      simp only [collections_aligned, Bool.and_eq_true] at ha
                      obtain ⟨⟨⟨ha1, ha2⟩, ha3⟩, ha4⟩ := ha
                      have ha1' : s.balances.length = s.validators.length :=
                        beq_iff_eq.mp ha1
                      refine ⟨?_, by simp, ?_, ?_, ?_⟩
                      · simp only [collections_aligned, Bool.and_eq_true]
                        refine ⟨⟨⟨?_, ?_⟩, ?_⟩, ?_⟩
                        · simp [List.length_append, ha1']
                        · simpa [List.length_append] using
                            opt_aligned_map_append (α := Nat) 0 ha2
                        · simpa [List.length_append] using
                            opt_aligned_map_append (α := Nat) 0 ha3
                        · simpa [List.length_append] using
                            opt_aligned_map_append (α := Nat) 0 ha4
                      · exact opt_map_isSome _ _
                      · exact opt_map_isSome _ _
                      · exact opt_map_isSome _ _

theorem apply_deposits_loop_growth (T : EthSpecC) (ext : Externals)
    (spec : ChainSpec) :
    ∀ (ds : List Deposit) (s s' : BeaconState),
      apply_deposits_loop T ext spec ds s = (s', none) →
      collections_aligned s = true →
      collections_aligned s' = true ∧
      s.validators.length ≤ s'.validators.length ∧
      s'.previous_epoch_participation.isSome = s.previous_epoch_participation.isSome ∧
      s'.current_epoch_participation.isSome = s.current_epoch_participation.isSome ∧
      s'.inactivity_scores.isSome = s.inactivity_scores.isSome := by
  intro ds
  induction ds with
  | nil =>
    intro s s' h ha
    simp only [apply_deposits_loop, Prod.mk.injEq] at h
    obtain ⟨h1, -⟩ := h
    subst h1
    exact ⟨ha, Nat.le_refl _, rfl, rfl, rfl⟩
  | cons d rest ih =>
    intro s s' h ha
    simp only [apply_deposits_loop] at h
    cases hd : process_deposit T ext spec s d false with
    | mk s1 oe =>
      cases oe with
      | some e => simp only [hd] at h; exact (err_pair_ne_ok h).elim
      | none =>
        simp only [hd] at h
        obtain ⟨ga, gl, gp, gc, gi⟩ := process_deposit_growth T ext spec s d s1 hd ha
        obtain ⟨ga', gl', gp', gc', gi'⟩ := ih s1 s' h ga
        exact ⟨ga', Nat.le_trans gl gl', gp'.trans gp, gc'.trans gc, gi'.trans gi⟩

theorem opt_growth {α : Type} {o o' : Option (List α)} {n n' : Nat}
    (hmono : n ≤ n') (halign : opt_aligned o n = true)
    (halign' : opt_aligned o' n' = true) (hsome : o'.isSome = o.isSome) :
    (o = none → o' = none) ∧
    (∀ l, o = some l → ∃ l', o' = some l' ∧ l'.length = l.length + (n' - n)) := by
  cases o with
  | none =>
    cases o' with
    | none => exact ⟨fun _ => rfl, fun l hl => Option.noConfusion hl⟩
    | some l' => simp at hsome
  | some l =>
    cases o' with
    | none => simp at hsome
    | some l' =>
      refine ⟨fun hh => Option.noConfusion hh, ?_⟩
      intro m hm
      injection hm with hm
      subst hm
      simp only [opt_aligned, beq_iff_eq] at halign halign'
      exact ⟨l', rfl, by omega⟩

/-- C7: a successful `process_deposits` run grows `Balances` and every
per-fork per-validator collection that the state carries by exactly the
number of newly created validators, preserving index alignment; absent
collections stay absent. -/
theorem process_deposits_index_alignment (T : EthSpecC) (ext : Externals)
    (spec : ChainSpec) (s : BeaconState) (ds : List Deposit) (s' : BeaconState)
    (h : process_deposits T ext spec s ds = (s', none))
    (ha : collections_aligned s = true) :
    collections_aligned s' = true ∧
    s.validators.length ≤ s'.validators.length ∧
    s'.balances.length = s.balances.length + (s'.validators.length - s.validators.length) ∧
    (s.previous_epoch_participation = none → s'.previous_epoch_participation = none) ∧
    (∀ l, s.previous_epoch_participation = some l →
      ∃ l', s'.previous_epoch_participation = some l' ∧
        l'.length = l.length + (s'.validators.length - s.validators.length)) ∧
    (s.current_epoch_participation = none → s'.current_epoch_participation = none) ∧
    (∀ l, s.current_epoch_participation = some l →
      ∃ l', s'.current_epoch_participation = some l' ∧
        l'.length = l.length + (s'.validators.length - s.validators.length)) ∧
    (s.inactivity_scores = none → s'.inactivity_scores = none) ∧
    (∀ l, s.inactivity_scores = some l →
      ∃ l', s'.inactivity_scores = some l' ∧
        l'.length = l.length + (s'.validators.length - s.validators.length)) := by
  simp only [process_deposits] at h
  cases hout : get_outstanding_deposit_len s with
  | error e => simp only [hout] at h; exact (err_pair_ne_ok h).elim
  | ok outstanding =>
    simp only [hout] at h
    by_cases hlen : ds.length = min T.max_deposits outstanding
    · rw [if_pos hlen] at h
      cases hvp : verify_deposit_proofs_loop ext s 0 ds with
      | some e => simp only [hvp] at h; exact (err_pair_ne_ok h).elim
      | none =>
        simp only [hvp] at h
        obtain ⟨ga, gl, gp, gc, gi⟩ :=
          apply_deposits_loop_growth T ext spec ds s s' h ha
        simp only [collections_aligned, Bool.and_eq_true] at ha ga
        obtain ⟨⟨⟨ha1, ha2⟩, ha3⟩, ha4⟩ := ha
        obtain ⟨⟨⟨ga1, ga2⟩, ga3⟩, ga4⟩ := ga
        have ha1' := beq_iff_eq.mp ha1
        have ga1' := beq_iff_eq.mp ga1
        obtain ⟨pp1, pp2⟩ := opt_growth gl ha2 ga2 gp
        obtain ⟨cc1, cc2⟩ := opt_growth gl ha3 ga3 gc
        obtain ⟨ii1, ii2⟩ := opt_growth gl ha4 ga4 gi
        refine ⟨?_, gl, by omega, pp1, pp2, cc1, cc2, ii1, ii2⟩
        simp only [collections_aligned, Bool.and_eq_true]
        exact ⟨⟨⟨ga1, ga2⟩, ga3⟩, ga4⟩
    · rw [if_neg hlen] at h
      exact (err_pair_ne_ok h).elim

theorem process_deposits_index_alignment_witness :
    (process_deposits TA extOk specA
        { stA with eth1_data_deposit_count := 1 } [depA]).2 = none ∧
    (process_deposits TA extOk specA
        { stA with eth1_data_deposit_count := 1 } [depA]).1.balances.length =
      stA.balances.length +
        ((process_deposits TA extOk specA
            { stA with eth1_data_deposit_count := 1 } [depA]).1.validators.length -
          stA.validators.length) := by
  have h := process_deposits_index_alignment TA extOk specA
    { stA with eth1_data_deposit_count := 1 } [depA]
    (process_deposits TA extOk specA
      { stA with eth1_data_deposit_count := 1 } [depA]).1
    (by rfl) (by decide)
  exact ⟨by rfl, h.2.2.1⟩

/-- Flag `f` of validator `v` in one epoch's flag list. -/
def list_has_flag (l : List Nat) (v f : Nat) : Bool :=
  match l.get? v with
  | some vp => has_flag vp f
  | none => false

/-- Flag `f` of validator `v` in an optional epoch flag collection. -/
def part_has_flag (l? : Option (List Nat)) (v f : Nat) : Bool :=
  match l? with
  | some l => list_has_flag l v f
  | none => false

/-- Participation flags of `s'` dominate those of `s` in both epochs:
every set flag stays set. -/
def flags_mono (s s' : BeaconState) : Prop :=
  ∀ v f, (part_has_flag s.previous_epoch_participation v f = true →
            part_has_flag s'.previous_epoch_participation v f = true) ∧
         (part_has_flag s.current_epoch_participation v f = true →
            part_has_flag s'.current_epoch_participation v f = true)

theorem flags_mono_refl (s : BeaconState) : flags_mono s s :=
  fun _ _ => ⟨id, id⟩

theorem flags_mono_trans {s1 s2 s3 : BeaconState} (h1 : flags_mono s1 s2)
    (h2 : flags_mono s2 s3) : flags_mono s1 s3 :=
  fun v f => ⟨fun h => (h2 v f).1 ((h1 v f).1 h), fun h => (h2 v f).2 ((h1 v f).2 h)⟩

theorem has_flag_add_flag {vp f g : Nat} (h : has_flag vp f = true) :
    has_flag (add_flag vp g) f = true := by
  unfold has_flag at h
  unfold has_flag add_flag
  rw [Nat.testBit_lor, h]
  rfl

theorem has_flag_add_flag_self (vp g : Nat) :
    has_flag (add_flag vp g) g = true := by
  unfold has_flag add_flag
  rw [Nat.testBit_lor, Nat.shiftLeft_eq, one_mul, Nat.testBit_two_pow_self]
  simp

theorem list_has_flag_set_add {l : List Nat} {u vpu : Nat} (g : Nat)
    (hu : l.get? u = some vpu) {v f : Nat}
    (h : list_has_flag l v f = true) :
    list_has_flag (l.set u (add_flag vpu g)) v f = true := by
  unfold list_has_flag at h ⊢
  by_cases huv : u = v
  · subst huv
    obtain ⟨hlt, -⟩ := List.get?_eq_some.mp hu
    rw [List.get?_set_eq_of_lt _ hlt]
    rw [hu] at h
    exact has_flag_add_flag h
  · rw [List.get?_set_ne _ _ huv]
    exact h

theorem flags_mono_set_epoch (T : EthSpecC) (s : BeaconState) (e : Nat)
    {ep : List Nat} {u vpu : Nat} (g : Nat)
    (hget : get_epoch_participation T s e = .ok ep)
    (hu : ep.get? u = some vpu) :
    flags_mono s (set_epoch_participation T s e (ep.set u (add_flag vpu g))) := by
  unfold get_epoch_participation at hget
  unfold set_epoch_participation
  by_cases hc : e = current_epoch T s
  · rw [if_pos hc] at hget ⊢
    cases hcur : s.current_epoch_participation with
    | none => rw [hcur] at hget; exact Except.noConfusion hget
    | some l =>
      rw [hcur] at hget
      injection hget with hget
      subst hget
      intro v f
      refine ⟨fun h => h, fun h => ?_⟩
      simp only [part_has_flag, hcur] at h ⊢
      exact list_has_flag_set_add g hu h
  · rw [if_neg hc] at hget ⊢
    by_cases hp : e = previous_epoch T s
    · rw [if_pos hp] at hget ⊢
      cases hprev : s.previous_epoch_participation with
      | none => rw [hprev] at hget; exact Except.noConfusion hget
      | some l =>
        rw [hprev] at hget
        injection hget with hget
        subst hget
        intro v f
        refine ⟨fun h => ?_, fun h => h⟩
        simp only [part_has_flag, hprev] at h ⊢
        exact list_has_flag_set_add g hu h
    · rw [if_neg hp] at hget
      exact Except.noConfusion hget

theorem attestation_flag_loop_mono (T : EthSpecC) (ext : Externals)
    (e : Nat) (pfi : List Nat) (brpi vi : Nat) :
    ∀ (ws : List (Nat × Nat)) (s : BeaconState) (num : Nat),
      flags_mono s (attestation_flag_loop T ext e pfi brpi vi ws s num).1 := by
  intro ws
  induction ws with
  | nil => intro s num; exact flags_mono_refl s
  | cons hd rest ih =>
    obtain ⟨fi, w⟩ := hd
    intro s num
    simp only [attestation_flag_loop]
    cases hget : get_epoch_participation T s e with
    | error e1 => simp only [hget]; exact flags_mono_refl s
    | ok ep =>
      simp only [hget]
      cases hv : ep.get? vi with
      | none => simp only [hv]; exact flags_mono_refl s
      | some vp =>
        simp only [hv]
        by_cases hcond : (pfi.contains fi && !(has_flag vp fi)) = true
        · rw [if_pos hcond]
          have hstep := flags_mono_set_epoch T s e fi hget hv
          cases hbr : ext.baseReward
              (set_epoch_participation T s e (ep.set vi (add_flag vp fi))) vi brpi with
          | none => simp only [hbr]; exact hstep
          | some br =>
            simp only [hbr]
            cases hmul : safe_mul br w with
            | error e1 => simp only [hmul]; exact hstep
            | ok c =>
              simp only [hmul]
              cases hadd : safe_add num c with
              | error e1 => simp only [hadd]; exact hstep
              | ok n1 =>
                simp only [hadd]
                by_cases hfi : fi = TIMELY_TARGET_FLAG_INDEX
                · rw [if_pos hfi]
                  cases hhook : ext.onTargetFlagSet
                      (set_epoch_participation T s e (ep.set vi (add_flag vp fi))) e vi with
                  | false =>
                    simp only [hhook, Bool.false_eq_true, if_false]
                    exact hstep
                  | true =>
                    simp only [hhook, if_true]
                    exact flags_mono_trans hstep (ih _ n1)
                · rw [if_neg hfi]
                  exact flags_mono_trans hstep (ih _ n1)
        · rw [if_neg hcond]
          exact ih s num

theorem attestation_indices_loop_mono (T : EthSpecC) (ext : Externals)
    (e : Nat) (pfi : List Nat) (brpi : Nat) :
    ∀ (idxs : List Nat) (s : BeaconState) (num : Nat),
      flags_mono s (attestation_indices_loop T ext e pfi brpi idxs s num).1 := by
  intro idxs
  induction idxs with
  | nil => intro s num; exact flags_mono_refl s
  | cons idx rest ih =>
    intro s num
    simp only [attestation_indices_loop]
    cases hfl : attestation_flag_loop T ext e pfi brpi idx
        PARTICIPATION_FLAG_WEIGHTS.enum s num with
    | mk s1 p =>
      obtain ⟨num1, oe⟩ := p
      have hmono1 : flags_mono s s1 := by
        have hm := attestation_flag_loop_mono T ext e pfi brpi idx
          PARTICIPATION_FLAG_WEIGHTS.enum s num
        rw [hfl] at hm
        exact hm
      cases oe with
      | some e1 => simp only [hfl]; exact hmono1
      | none => simp only [hfl]; exact flags_mono_trans hmono1 (ih s1 num1)

theorem increase_balance_preserves_participation {s : BeaconState}
    {i a : Nat} {s' : BeaconState} (h : increase_balance s i a = .ok s') :
    s'.previous_epoch_participation = s.previous_epoch_participation ∧
    s'.current_epoch_participation = s.current_epoch_participation := by
  unfold increase_balance at h
  cases hb : s.balances.get? i with
  | none => simp only [hb] at h; exact Except.noConfusion h
  | some b =>
    simp only [hb] at h
    cases hadd : safe_add b a with
    | error e => simp only [hadd] at h; exact Except.noConfusion h
    | ok b1 =>
      simp only [hadd, Except.ok.injEq] at h
      rw [← h]
      exact ⟨rfl, rfl⟩

theorem altair_process_attestation_mono (T : EthSpecC) (ext : Externals)
    (vs : VerifySignatures) (ctxt : ConsensusContext) (spec : ChainSpec)
    (s : BeaconState) (att : Attestation) (i : Nat) :
    flags_mono s (altair_process_attestation T ext vs ctxt spec s att i).1 := by
  unfold altair_process_attestation
  by_cases h1 : ext.buildCommitteeCachePrev s = true
  · rw [if_pos h1]
    by_cases h2 : ext.buildCommitteeCacheCurr s = true
    · rw [if_pos h2]
      cases hpi : ctxt_proposer_index ext ctxt s with
      | none => simp only [hpi]; exact flags_mono_refl s
      | some pi =>
        simp only [hpi]
        cases hva : ext.verifyAttestation s att with
        | none => simp only [hva]; exact flags_mono_refl s
        | some ai =>
          simp only [hva]
          cases hdel : safe_sub s.slot att.data.slot with
          | error e => simp only [hdel]; exact flags_mono_refl s
          | ok delay =>
            simp only [hdel]
            cases hpf : ext.participationFlagIndices s att.data delay with
            | none => simp only [hpf]; exact flags_mono_refl s
            | some pfi =>
              simp only [hpf]
              cases htab : get_total_active_balance s with
              | error e => simp only [htab]; exact flags_mono_refl s
              | ok tab =>
                simp only [htab]
                cases hbr : ext.baseRewardPerIncrement tab with
                | none => simp only [hbr]; exact flags_mono_refl s
                | some brpi =>
                  simp only [hbr]
                  cases hloop : attestation_indices_loop T ext
                      att.data.target.epoch pfi brpi ai s 0 with
                  | mk s1 p =>
                    obtain ⟨num, oe⟩ := p
                    have hmono1 : flags_mono s s1 := by
                      have hm := attestation_indices_loop_mono T ext
                        att.data.target.epoch pfi brpi ai s 0
                      rw [hloop] at hm
                      exact hm
                    cases oe with
                    | some e => simp only [hloop]; exact hmono1
                    | none =>
                      simp only [hloop,
                        show safe_sub WEIGHT_DENOMINATOR PROPOSER_WEIGHT = .ok 56 from rfl,
                        show safe_mul 56 WEIGHT_DENOMINATOR = .ok 3584 from rfl,
                        show safe_div 3584 PROPOSER_WEIGHT = .ok 448 from rfl]
                      cases hdv : safe_div num 448 with
                      | error e => simp only [hdv]; exact hmono1
                      | ok reward =>
                        simp only [hdv]
                        cases hib : increase_balance s1 pi reward with
                        | error e => simp only [hib]; exact hmono1
                        | ok s2 =>
                          simp only [hib]
                          obtain ⟨hpp, hcc⟩ :=
                            increase_balance_preserves_participation hib
                          refine flags_mono_trans hmono1 (fun v f => ?_)
                          rw [hpp, hcc]
                          exact ⟨id, id⟩
    · rw [if_neg h2]
      exact flags_mono_refl s
  · rw [if_neg h1]
    exact flags_mono_refl s

theorem safe_mul_ok {a b c : Nat} (h : safe_mul a b = .ok c) : c = a * b := by
  unfold safe_mul at h
  split at h
  · injection h with h
    exact h.symm
  · exact Except.noConfusion h

theorem safe_add_ok {a b c : Nat} (h : safe_add a b = .ok c) : c = a + b := by
  unfold safe_add at h
  split at h
  · injection h with h
    exact h.symm
  · exact Except.noConfusion h

/-- C5: participation flags are monotonically non-decreasing under
flag-based attestation processing (never cleared, even on an error exit),
and one step of the per-validator flag loop leaves the state and the
proposer-reward numerator untouched when the flag is not newly satisfied
or already set, while in the complementary case it sets exactly that flag
and accrues `base_reward × weight` into the numerator. -/
theorem altair_attestation_flag_monotone :
    (∀ (T : EthSpecC) (ext : Externals) (vs : VerifySignatures)
        (ctxt : ConsensusContext) (spec : ChainSpec) (s : BeaconState)
        (att : Attestation) (i : Nat),
      flags_mono s (altair_process_attestation T ext vs ctxt spec s att i).1) ∧
    (∀ (T : EthSpecC) (ext : Externals) (e : Nat) (pfi : List Nat)
        (brpi vi fi w num : Nat) (s : BeaconState) (ep : List Nat) (vp : Nat),
      get_epoch_participation T s e = .ok ep →
      ep.get? vi = some vp →
      (pfi.contains fi && !(has_flag vp fi)) = false →
      attestation_flag_loop T ext e pfi brpi vi [(fi, w)] s num = (s, num, none)) ∧
    (∀ (T : EthSpecC) (ext : Externals) (e : Nat) (pfi : List Nat)
        (brpi vi fi w num : Nat) (s : BeaconState) (ep : List Nat)
        (vp br c n1 : Nat),
      get_epoch_participation T s e = .ok ep →
      ep.get? vi = some vp →
      (pfi.contains fi && !(has_flag vp fi)) = true →
      ext.baseReward (set_epoch_participation T s e (ep.set vi (add_flag vp fi)))
        vi brpi = some br →
      safe_mul br w = .ok c →
      safe_add num c = .ok n1 →
      (fi = TIMELY_TARGET_FLAG_INDEX →
        ext.onTargetFlagSet
          (set_epoch_participation T s e (ep.set vi (add_flag vp fi))) e vi = true) →
      attestation_flag_loop T ext e pfi brpi vi [(fi, w)] s num =
        (set_epoch_participation T s e (ep.set vi (add_flag vp fi)), n1, none) ∧
      n1 = num + br * w ∧
      list_has_flag (ep.set vi (add_flag vp fi)) vi fi = true) := by
  refine ⟨?_, ?_, ?_⟩
  · intro T ext vs ctxt spec s att i
    exact altair_process_attestation_mono T ext vs ctxt spec s att i
  · intro T ext e pfi brpi vi fi w num s ep vp hget hvp hguard
    simp only [attestation_flag_loop, hget, hvp, hguard, Bool.false_eq_true,
      if_false]
  · intro T ext e pfi brpi vi fi w num s ep vp br c n1 hget hvp hguard hbr hmul hadd hhook
    refine ⟨?_, ?_, ?_⟩
    · simp only [attestation_flag_loop, hget, hvp, hguard, if_true, hbr, hmul, hadd]
      by_cases hfi : fi = TIMELY_TARGET_FLAG_INDEX
      · rw [if_pos hfi]
        simp only [hhook hfi, if_true]
      · rw [if_neg hfi]
    · rw [safe_add_ok hadd, safe_mul_ok hmul]
    · unfold list_has_flag
      obtain ⟨hlt, -⟩ := List.get?_eq_some.mp hvp
      rw [List.get?_set_eq_of_lt _ hlt]
      exact has_flag_add_flag_self vp fi

/-- Embeds `stA` with a two-validator current-epoch flag list. -/
def stP : BeaconState := { stA with current_epoch_participation := some [0, 0] }

theorem altair_attestation_flag_monotone_witness :
    attestation_flag_loop TA extOk 2 [0] 1 0 [(0, 14)] stP 0 =
      (set_epoch_participation TA stP 2 ([0, 0].set 0 (add_flag 0 0)), 14, none) ∧
    (14 : Nat) = 0 + 1 * 14 ∧
    list_has_flag ([0, 0].set 0 (add_flag 0 0)) 0 0 = true :=
  altair_attestation_flag_monotone.2.2 TA extOk 2 [0] 1 0 0 14 0 stP [0, 0] 0 1
    14 14 (by rfl) (by rfl) (by decide) (by rfl) (by rfl) (by rfl)
    (by intro hh; exact absurd hh (by decide))

/-- Modelled from the spec: the flag-based attestation step with the
base-reward-per-increment value supplied from outside ("compute it once,
reuse for every validator"); otherwise identical to
`altair_process_attestation`. -/
def altair_process_attestation_given (T : EthSpecC) (ext : Externals)
    (vs : VerifySignatures) (ctxt : ConsensusContext) (spec : ChainSpec)
    (brpi : Nat) (s : BeaconState) (att : Attestation) (att_index : Nat) :
    BeaconState × Option BErr :=
  if ext.buildCommitteeCachePrev s then
    if ext.buildCommitteeCacheCurr s then
      match ctxt_proposer_index ext ctxt s with
      | none => (s, some .beaconStateError)
      | some pi =>
        match ext.verifyAttestation s att with
        | none => (s, some (.attestationInvalid att_index))
        | some attesting_indices =>
          match safe_sub s.slot att.data.slot with
          | .error e => (s, some e)
          | .ok inclusion_delay =>
            match ext.participationFlagIndices s att.data inclusion_delay with
            | none => (s, some .beaconStateError)
            | some pfi =>
              match attestation_indices_loop T ext att.data.target.epoch
                  pfi brpi attesting_indices s 0 with
              | (s1, _, some e) => (s1, some e)
              | (s1, num, none) =>
                match safe_sub WEIGHT_DENOMINATOR PROPOSER_WEIGHT with
                | .error e => (s1, some e)
                | .ok d1 =>
                  match safe_mul d1 WEIGHT_DENOMINATOR with
                  | .error e => (s1, some e)
                  | .ok d2 =>
                    match safe_div d2 PROPOSER_WEIGHT with
                    | .error e => (s1, some e)
                    | .ok denom =>
                      match safe_div num denom with
                      | .error e => (s1, some e)
                      | .ok reward =>
                        match increase_balance s1 pi reward with
                        | .error e => (s1, some e)
                        | .ok s2 => (s2, none)
    else (s, some .committeeCacheError)
  else (s, some .committeeCacheError)

/-- Modelled from the spec: the indexed attestation fold reusing one
precomputed base-reward-per-increment value. -/
def altair_process_attestations_once_aux (T : EthSpecC) (ext : Externals)
    (vs : VerifySignatures) (ctxt : ConsensusContext) (spec : ChainSpec)
    (brpi : Nat) :
    Nat → BeaconState → List Attestation → BeaconState × Option BErr
  | _, s, [] => (s, none)
  | i, s, att :: rest =>
    match altair_process_attestation_given T ext vs ctxt spec brpi s att i with
    | (s1, some e) => (s1, some e)
    | (s1, none) =>
      altair_process_attestations_once_aux T ext vs ctxt spec brpi (i + 1) s1 rest

/-- Modelled from the spec: the once-per-block variant — derive the
base-reward-per-increment from total active balance once, before any
attestation, and reuse it across the whole block. -/
def altair_process_attestations_once (T : EthSpecC) (ext : Externals)
    (vs : VerifySignatures) (ctxt : ConsensusContext) (spec : ChainSpec)
    (s : BeaconState) (attestations : List Attestation) :
    BeaconState × Option BErr :=
  match get_total_active_balance s with
  | .error e => (s, some e)
  | .ok tab =>
    match ext.baseRewardPerIncrement tab with
    | none => (s, some .arithError)
    | some brpi =>
      altair_process_attestations_once_aux T ext vs ctxt spec brpi 0 s attestations

theorem set_epoch_participation_tab (T : EthSpecC) (s : BeaconState)
    (e : Nat) (l : List Nat) :
    (set_epoch_participation T s e l).total_active_balance =
      s.total_active_balance := by
  unfold set_epoch_participation
  split
  · rfl
  · split <;> rfl

theorem attestation_flag_loop_tab (T : EthSpecC) (ext : Externals)
    (e : Nat) (pfi : List Nat) (brpi vi : Nat) :
    ∀ (ws : List (Nat × Nat)) (s : BeaconState) (num : Nat),
      (attestation_flag_loop T ext e pfi brpi vi ws s num).1.total_active_balance =
        s.total_active_balance := by
  intro ws
  induction ws with
  | nil => intro s num; rfl
  | cons hd rest ih =>
    obtain ⟨fi, w⟩ := hd
    intro s num
    simp only [attestation_flag_loop]
    cases hget : get_epoch_participation T s e with
    | error e1 => simp only [hget]
    | ok ep =>
      simp only [hget]
      cases hv : ep.get? vi with
      | none => simp only [hv]
      | some vp =>
        simp only [hv]
        by_cases hcond : (pfi.contains fi && !(has_flag vp fi)) = true
        · rw [if_pos hcond]
          have hstep := set_epoch_participation_tab T s e (ep.set vi (add_flag vp fi))
          cases hbr : ext.baseReward
              (set_epoch_participation T s e (ep.set vi (add_flag vp fi))) vi brpi with
          | none => simpa using hstep
          | some br =>
            simp only [hbr]
            cases hmul : safe_mul br w with
            | error e1 => simpa using hstep
            | ok c =>
              simp only [hmul]
              cases hadd : safe_add num c with
              | error e1 => simpa using hstep
              | ok n1 =>
                simp only [hadd]
                by_cases hfi : fi = TIMELY_TARGET_FLAG_INDEX
                · rw [if_pos hfi]
                  cases hhook : ext.onTargetFlagSet
                      (set_epoch_participation T s e (ep.set vi (add_flag vp fi))) e vi with
                  | false =>
                    simp only [hhook, Bool.false_eq_true, if_false]
                    exact hstep
                  | true =>
                    simp only [hhook, if_true]
                    rw [ih _ n1, hstep]
                · rw [if_neg hfi]
                  rw [ih _ n1, hstep]
        · rw [if_neg hcond]
          exact ih s num

theorem attestation_indices_loop_tab (T : EthSpecC) (ext : Externals)
    (e : Nat) (pfi : List Nat) (brpi : Nat) :
    ∀ (idxs : List Nat) (s : BeaconState) (num : Nat),
      (attestation_indices_loop T ext e pfi brpi idxs s num).1.total_active_balance =
        s.total_active_balance := by
  intro idxs
  induction idxs with
  | nil => intro s num; rfl
  | cons idx rest ih =>
    intro s num
    simp only [attestation_indices_loop]
    cases hfl : attestation_flag_loop T ext e pfi brpi idx
        PARTICIPATION_FLAG_WEIGHTS.enum s num with
    | mk s1 p =>
      obtain ⟨num1, oe⟩ := p
      have htab1 : s1.total_active_balance = s.total_active_balance := by
        have hm := attestation_flag_loop_tab T ext e pfi brpi idx
          PARTICIPATION_FLAG_WEIGHTS.enum s num
        rw [hfl] at hm
        exact hm
      cases oe with
      | some e1 => simp only [hfl]; exact htab1
      | none => simp only [hfl]; rw [ih s1 num1, htab1]

theorem increase_balance_preserves_tab {s : BeaconState} {i a : Nat}
    {s' : BeaconState} (h : increase_balance s i a = .ok s') :
    s'.total_active_balance = s.total_active_balance := by
  unfold increase_balance at h
  cases hb : s.balances.get? i with
  | none => simp only [hb] at h; exact Except.noConfusion h
  | some b =>
    simp only [hb] at h
    cases hadd : safe_add b a with
    | error e => simp only [hadd] at h; exact Except.noConfusion h
    | ok b1 =>
      simp only [hadd, Except.ok.injEq] at h
      rw [← h]

theorem altair_process_attestation_tab (T : EthSpecC) (ext : Externals)
    (vs : VerifySignatures) (ctxt : ConsensusContext) (spec : ChainSpec)
    (s : BeaconState) (att : Attestation) (i : Nat) :
    (altair_process_attestation T ext vs ctxt spec s att i).1.total_active_balance =
      s.total_active_balance := by
  unfold altair_process_attestation
  by_cases h1 : ext.buildCommitteeCachePrev s = true
  · rw [if_pos h1]
    by_cases h2 : ext.buildCommitteeCacheCurr s = true
    · rw [if_pos h2]
      cases hpi : ctxt_proposer_index ext ctxt s with
      | none => simp only [hpi]
      | some pi =>
        simp only [hpi]
        cases hva : ext.verifyAttestation s att with
        | none => simp only [hva]
        | some ai =>
          simp only [hva]
          cases hdel : safe_sub s.slot att.data.slot with
          | error e => simp only [hdel]
          | ok delay =>
            simp only [hdel]
            cases hpf : ext.participationFlagIndices s att.data delay with
            | none => simp only [hpf]
            | some pfi =>
              simp only [hpf]
              cases htb : get_total_active_balance s with
              | error e => simp only [htb]
              | ok tab =>
                simp only [htb]
                cases hbr : ext.baseRewardPerIncrement tab with
                | none => simp only [hbr]
                | some brpi =>
                  simp only [hbr]
                  cases hloop : attestation_indices_loop T ext
                      att.data.target.epoch pfi brpi ai s 0 with
                  | mk s1 p =>
                    obtain ⟨num, oe⟩ := p
                    have htab1 : s1.total_active_balance = s.total_active_balance := by
                      have hm := attestation_indices_loop_tab T ext
                        att.data.target.epoch pfi brpi ai s 0
                      rw [hloop] at hm
                      exact hm
                    cases oe with
                    | some e => simp only [hloop]; exact htab1
                    | none =>
                      simp only [hloop,
                        show safe_sub WEIGHT_DENOMINATOR PROPOSER_WEIGHT = .ok 56 from rfl,
                        show safe_mul 56 WEIGHT_DENOMINATOR = .ok 3584 from rfl,
                        show safe_div 3584 PROPOSER_WEIGHT = .ok 448 from rfl]
                      cases hdv : safe_div num 448 with
                      | error e => simp only [hdv]; exact htab1
                      | ok reward =>
                        simp only [hdv]
                        cases hib : increase_balance s1 pi reward with
                        | error e => simp only [hib]; exact htab1
                        | ok s2 =>
                          simp only [hib]
                          rw [increase_balance_preserves_tab hib, htab1]
    · rw [if_neg h2]
  · rw [if_neg h1]

theorem altair_process_attestation_given_eq (T : EthSpecC) (ext : Externals)
    (vs : VerifySignatures) (ctxt : ConsensusContext) (spec : ChainSpec)
    (tab brpi : Nat) (s : BeaconState) (att : Attestation) (i : Nat)
    (htab : s.total_active_balance = some tab)
    (hbrpi : ext.baseRewardPerIncrement tab = some brpi) :
    altair_process_attestation T ext vs ctxt spec s att i =
      altair_process_attestation_given T ext vs ctxt spec brpi s att i := by
  have hg : get_total_active_balance s = .ok tab := by
    unfold get_total_active_balance
    rw [htab]
  unfold altair_process_attestation altair_process_attestation_given
  simp only [hg, hbrpi]

theorem altair_process_attestations_once_aux_eq (T : EthSpecC)
    (ext : Externals) (vs : VerifySignatures) (ctxt : ConsensusContext)
    (spec : ChainSpec) (tab brpi : Nat)
    (hbrpi : ext.baseRewardPerIncrement tab = some brpi) :
    ∀ (atts : List Attestation) (i : Nat) (s : BeaconState),
      s.total_active_balance = some tab →
      altair_process_attestations_aux T ext vs ctxt spec i s atts =
        altair_process_attestations_once_aux T ext vs ctxt spec brpi i s atts := by
  intro atts
  induction atts with
  | nil => intro i s htab; rfl
  | cons att rest ih =>
    intro i s htab
    simp only [altair_process_attestations_aux,
      altair_process_attestations_once_aux,
      altair_process_attestation_given_eq T ext vs ctxt spec tab brpi s att i
        htab hbrpi]
    cases hr : altair_process_attestation_given T ext vs ctxt spec brpi s att i with
    | mk s1 oe =>
      cases oe with
      | some e => simp only [hr]
      | none =>
        simp only [hr]
        apply ih
        have hpres := altair_process_attestation_tab T ext vs ctxt spec s att i
        rw [altair_process_attestation_given_eq T ext vs ctxt spec tab brpi s att i
          htab hbrpi, hr] at hpres
        rw [← htab]
        exact hpres

/-- C9: processing a block's attestations with the implementation's
per-attestation recomputation of the base-reward-per-increment value is
extensionally equal to computing that value once per block from total
active balance and reusing it for every validator of every attestation:
attestation processing never changes the total-active-balance cache the
value is derived from. -/
theorem altair_base_reward_once_per_block (T : EthSpecC) (ext : Externals)
    (vs : VerifySignatures) (ctxt : ConsensusContext) (spec : ChainSpec)
    (s : BeaconState) (atts : List Attestation) (tab brpi : Nat)
    (htab : s.total_active_balance = some tab)
    (hbrpi : ext.baseRewardPerIncrement tab = some brpi) :
    altair_process_attestations T ext vs ctxt spec s atts =
      altair_process_attestations_once T ext vs ctxt spec s atts := by
  have hg : get_total_active_balance s = .ok tab := by
    unfold get_total_active_balance
    rw [htab]
  unfold altair_process_attestations altair_process_attestations_once
  simp only [hg, hbrpi]
  exact altair_process_attestations_once_aux_eq T ext vs ctxt spec tab brpi
    hbrpi atts 0 s htab

/-- An attestation fixture targeting the current epoch of `stA`/`stP`. -/
def attA : Attestation :=
  { aggregation_bits := [true]
    data := { slot := 64, index := 0, beacon_block_root := 0
              source := { epoch := 1, root := 0 }
              target := { epoch := 2, root := 0 } }
    signature := 0 }

theorem altair_base_reward_once_per_block_witness :
    altair_process_attestations TA extOk .no { proposer_index := some 0 }
        specA stP [attA] =
      altair_process_attestations_once TA extOk .no { proposer_index := some 0 }
        specA stP [attA] :=
  altair_base_reward_once_per_block TA extOk .no { proposer_index := some 0 }
    specA stP [attA] 32000000000 1 (by rfl) (by rfl)

/-- One attestation's verification and flag updates, accruing into a
numerator threaded from outside and paying no reward (building block of
the claimed once-per-block reward reading). -/
def altair_process_attestation_accum (T : EthSpecC) (ext : Externals)
    (vs : VerifySignatures) (ctxt : ConsensusContext) (spec : ChainSpec)
    (s : BeaconState) (att : Attestation) (att_index num : Nat) :
    BeaconState × Nat × Option BErr :=
  if ext.buildCommitteeCachePrev s then
    if ext.buildCommitteeCacheCurr s then
      match ctxt_proposer_index ext ctxt s with
      | none => (s, num, some .beaconStateError)
      | some _ =>
        match ext.verifyAttestation s att with
        | none => (s, num, some (.attestationInvalid att_index))
        | some attesting_indices =>
          match safe_sub s.slot att.data.slot with
          | .error e => (s, num, some e)
          | .ok inclusion_delay =>
            match ext.participationFlagIndices s att.data inclusion_delay with
            | none => (s, num, some .beaconStateError)
            | some pfi =>
              match get_total_active_balance s with
              | .error e => (s, num, some e)
              | .ok tab =>
                match ext.baseRewardPerIncrement tab with
                | none => (s, num, some .arithError)
                | some brpi =>
                  attestation_indices_loop T ext att.data.target.epoch
                    pfi brpi attesting_indices s num
    else (s, num, some .committeeCacheError)
  else (s, num, some .committeeCacheError)

/-- The indexed fold of `altair_process_attestation_accum`. -/
def block_reward_accum_aux (T : EthSpecC) (ext : Externals)
    (vs : VerifySignatures) (ctxt : ConsensusContext) (spec : ChainSpec) :
    Nat → BeaconState → Nat → List Attestation → BeaconState × Nat × Option BErr
  | _, s, num, [] => (s, num, none)
  | i, s, num, att :: rest =>
    match altair_process_attestation_accum T ext vs ctxt spec s att i num with
    | (s1, num1, some e) => (s1, num1, some e)
    | (s1, num1, none) =>
      block_reward_accum_aux T ext vs ctxt spec (i + 1) s1 num1 rest

/-- The claimed once-per-block reward reading of the flag-based variant:
process every attestation's flag updates into one per-block numerator,
then — after all attestations and attesting validators — compute a single
reward `numerator / ((WEIGHT_DENOMINATOR − PROPOSER_WEIGHT) ×
WEIGHT_DENOMINATOR / PROPOSER_WEIGHT)` and credit it to the proposer
once.  (Stated from the claim's words, to be compared with the
implementation's `altair_process_attestations`.) -/
def altair_process_attestations_block_reward (T : EthSpecC) (ext : Externals)
    (vs : VerifySignatures) (ctxt : ConsensusContext) (spec : ChainSpec)
    (s : BeaconState) (attestations : List Attestation) :
    BeaconState × Option BErr :=
  match block_reward_accum_aux T ext vs ctxt spec 0 s 0 attestations with
  | (s1, _, some e) => (s1, some e)
  | (s1, num, none) =>
    match safe_sub WEIGHT_DENOMINATOR PROPOSER_WEIGHT with
    | .error e => (s1, some e)
    | .ok d1 =>
      match safe_mul d1 WEIGHT_DENOMINATOR with
      | .error e => (s1, some e)
      | .ok d2 =>
        match safe_div d2 PROPOSER_WEIGHT with
        | .error e => (s1, some e)
        | .ok denom =>
          match safe_div num denom with
          | .error e => (s1, some e)
          | .ok reward =>
            match ctxt_proposer_index ext ctxt s1 with
            | none => (s1, some .beaconStateError)
            | some pi =>
              match increase_balance s1 pi reward with
              | .error e => (s1, some e)
              | .ok s2 => (s2, none)

/-- External fixture for the reward computation: one attesting validator
(index 1), base reward 16, flag indices selected by the attestation's
committee index (`0 ↦ [0]`, otherwise `[2]`). -/
def extC : Externals :=
  { extOk with
      verifyAttestation := fun _ _ => some [1]
      participationFlagIndices := fun _ data _ =>
        if data.index = 0 then some [0] else some [2]
      baseReward := fun _ _ _ => some 16 }

/-- A two-validator state with a current-epoch flag list and balances
`[100, 100]`. -/
def stC : BeaconState :=
  { stA with
      validators := [valA, { valA with pubkey := 2 }]
      balances := [100, 100]
      current_epoch_participation := some [0, 0]
      total_active_balance := some 64000000000 }

/-- Embeds `attA` with committee index `1` (selects flag `2`). -/
def attC2 : Attestation := { attA with data := { attA.data with index := 1 } }

theorem altair_block_reward_counterexample :
    altair_process_attestations TA extC .no { proposer_index := some 0 }
        specA stC [attA, attC2] ≠
      altair_process_attestations_block_reward TA extC .no
        { proposer_index := some 0 } specA stC [attA, attC2] ∧
    (altair_process_attestations TA extC .no { proposer_index := some 0 }
        specA stC [attA, attC2]).1.balances = [100, 100] ∧
    (altair_process_attestations_block_reward TA extC .no
        { proposer_index := some 0 } specA stC [attA, attC2]).1.balances =
      [101, 100] := by
  refine ⟨?_, by rfl, by rfl⟩
  decide

/-- C4 (amended): in the flag-based variant the proposer reward is
computed and credited once per *attestation*, not once per block: after
all attesting validators of one attestation are processed, the reward is
the accrued numerator floor-divided by
`(WEIGHT_DENOMINATOR − PROPOSER_WEIGHT) × WEIGHT_DENOMINATOR /
PROPOSER_WEIGHT` — each division floored in exactly that order, the
denominator evaluating to `448` — and that single per-attestation reward
is immediately credited to the proposer. -/
theorem altair_attestation_reward_per_attestation (T : EthSpecC)
    (ext : Externals) (vs : VerifySignatures) (ctxt : ConsensusContext)
    (spec : ChainSpec) (s : BeaconState) (att : Attestation)
    (i pi : Nat) (ai : List Nat) (delay : Nat) (pfi : List Nat)
    (tab brpi : Nat) (s1 : BeaconState) (num : Nat) (s2 : BeaconState)
    (h1 : ext.buildCommitteeCachePrev s = true)
    (h2 : ext.buildCommitteeCacheCurr s = true)
    (hpi : ctxt_proposer_index ext ctxt s = some pi)
    (hva : ext.verifyAttestation s att = some ai)
    (hdel : safe_sub s.slot att.data.slot = .ok delay)
    (hpf : ext.participationFlagIndices s att.data delay = some pfi)
    (htab : get_total_active_balance s = .ok tab)
    (hbr : ext.baseRewardPerIncrement tab = some brpi)
    (hloop : attestation_indices_loop T ext att.data.target.epoch pfi brpi ai
      s 0 = (s1, num, none))
    (hib : increase_balance s1 pi
      (num / ((WEIGHT_DENOMINATOR - PROPOSER_WEIGHT) * WEIGHT_DENOMINATOR /
        PROPOSER_WEIGHT)) = .ok s2) :
    altair_process_attestation T ext vs ctxt spec s att i = (s2, none) ∧
    safe_div ((WEIGHT_DENOMINATOR - PROPOSER_WEIGHT) * WEIGHT_DENOMINATOR)
      PROPOSER_WEIGHT = .ok 448 ∧
    (WEIGHT_DENOMINATOR - PROPOSER_WEIGHT) * WEIGHT_DENOMINATOR /
      PROPOSER_WEIGHT = 448 := by
  have hib448 : increase_balance s1 pi (num / 448) = .ok s2 := hib
  refine ⟨?_, by rfl, by rfl⟩
  unfold altair_process_attestation
  rw [if_pos h1, if_pos h2]
  simp only [hpi, hva, hdel, hpf, htab, hbr, hloop,
    show safe_sub WEIGHT_DENOMINATOR PROPOSER_WEIGHT = .ok 56 from rfl,
    show safe_mul 56 WEIGHT_DENOMINATOR = .ok 3584 from rfl,
    show safe_div 3584 PROPOSER_WEIGHT = .ok 448 from rfl,
    show ∀ n : Nat, safe_div n 448 = .ok (n / 448) from fun n => rfl,
    hib448]

/-- Embeds `stC` after `attA` alone: flag `0` set for validator `1`, reward
`224 / 448 = 0` credited. -/
def stC1 : BeaconState := { stC with current_epoch_participation := some [0, 1] }

theorem altair_attestation_reward_per_attestation_witness :
    altair_process_attestation TA extC .no { proposer_index := some 0 }
      specA stC attA 0 = (stC1, none) ∧
    safe_div ((WEIGHT_DENOMINATOR - PROPOSER_WEIGHT) * WEIGHT_DENOMINATOR)
      PROPOSER_WEIGHT = .ok 448 ∧
    (WEIGHT_DENOMINATOR - PROPOSER_WEIGHT) * WEIGHT_DENOMINATOR /
      PROPOSER_WEIGHT = 448 :=
  altair_attestation_reward_per_attestation TA extC .no
    { proposer_index := some 0 } specA stC attA 0 0 [1] 0 [0]
    64000000000 1 stC1 224 stC1
    (by rfl) (by rfl) (by rfl) (by rfl) (by rfl) (by rfl) (by rfl) (by rfl)
    (by rfl) (by rfl)
